import Mathlib

/-!
Verification of the pumplotto backend core: game lifecycle, ingestion
pipeline, and draw engine.  The definitions below are a shallow embedding
of `src/services/gameService.js`, `src/services/participantService.js`,
`src/services/drawService.js`, `src/services/scheduler.js`, the Solana
listener, and the MySQL schema (`database/schema.sql`).  Times are integer
milliseconds, SOL amounts are exact rationals, lamport balances are
integers (all JS numbers involved stay far below 2^53, so integer
arithmetic in the source is exact).
-/

namespace PumpLotto

/-- Game status: the `status ENUM('running','completed')` column. -/
inductive GameStatus where
  | running
  | completed
deriving DecidableEq, Repr

/-- A row of the `games` table. -/
structure Game where
  game_id : Nat
  start_time : Int
  end_time : Int
  status : GameStatus
  winner_address : Option String
  draw_shortlist : List String
  total_volume : Rat
  prize_pool : Rat
deriving DecidableEq, Repr

/-- A row of the `participants` table. -/
structure Participant where
  entry_id : Nat
  game_id : Nat
  wallet_address : String
  transaction_sig : String
  sol_amount : Rat
deriving DecidableEq, Repr

/-- A row of the `winners` table. -/
structure WinnerRow where
  game_id : Nat
  wallet_address : String
  total_participants : Nat
  shortlist_size : Nat
deriving DecidableEq, Repr

/-- The relational store (games, participants, winners) plus the
auto-increment counters. -/
structure DB where
  games : List Game
  participants : List Participant
  winners : List WinnerRow
  nextGameId : Nat
  nextEntryId : Nat
deriving DecidableEq, Repr

/-- Model of `parseInt(process.env.GAME_DURATION_MINUTES) || 20` with the default. -/
def gameDurationMinutes : Nat := 20

/-- Model of `const prizePercentage = 0.001` in `participantService.updateGameVolume`. -/
def prizePercentage : Rat := 1 / 1000

/-- Model of `GameService.createNewGame`: inserts a new `running` game whose end time
is start + duration, and returns it. -/
def createNewGame (db : DB) (now : Int) : DB × Game :=
  let endTime := now + (gameDurationMinutes : Int) * 60 * 1000
  let g : Game :=
    { game_id := db.nextGameId, start_time := now, end_time := endTime,
      status := GameStatus.running, winner_address := none,
      draw_shortlist := [], total_volume := 0, prize_pool := 0 }
  ({ db with games := db.games ++ [g], nextGameId := db.nextGameId + 1 }, g)

/-- The `WHERE status = 'running'` filter. -/
def runningGames (db : DB) : List Game :=
  db.games.filter (fun g => g.status == GameStatus.running)

/-- Fold implementing `ORDER BY start_time DESC LIMIT 1`: keep the game with
the latest start time. -/
def laterStarted (acc : Option Game) (g : Game) : Option Game :=
  match acc with
  | none => some g
  | some h => if h.start_time < g.start_time then some g else some h

/-- Model of `GameService.getCurrentGame`: the most recently started `running` game,
or none. -/
def getCurrentGame (db : DB) : Option Game :=
  (runningGames db).foldl laterStarted none

/-- Model of `GameService.getExpiredGames`: all `running` games with `end_time < now`
(strict comparison, as in the SQL query). -/
def getExpiredGames (db : DB) (now : Int) : List Game :=
  db.games.filter (fun g => g.status == GameStatus.running && decide (g.end_time < now))

/-- The per-row effect of the `UPDATE games SET status='completed', ...`
statement in `GameService.completeGame`. -/
def setCompleted (gameId : Nat) (winner : Option String) (shortlist : List String)
    (g : Game) : Game :=
  if g.game_id = gameId then
    { g with status := GameStatus.completed, winner_address := winner,
             draw_shortlist := shortlist }
  else g

/-- Model of `INSERT INTO winners ...`: fails (returns `none`) when a row for the
same game already exists, enforcing `UNIQUE KEY unique_game_winner (game_id)`. -/
def insertWinner (db : DB) (w : WinnerRow) : Option DB :=
  if db.winners.any (fun x => x.game_id == w.game_id) then none
  else some { db with winners := db.winners ++ [w] }

/-- JS truthiness of the `winnerAddress` value tested by
`if (winnerAddress)` in `GameService.completeGame`: `null` and the empty
string are falsy. -/
def jsTruthy : Option String → Bool
  | none => false
  | some s => s ≠ ""

/-- Model of `GameService.completeGame`: runs the games `UPDATE` unconditionally,
then inserts a winner row when `winnerAddress` is truthy.  Each SQL
statement commits on its own (no transaction), so the games update
persists even when the winner insert is rejected; the `Bool` is `false`
exactly when the insert raised `ER_DUP_ENTRY`. -/
def completeGame (db : DB) (gameId : Nat) (winner : Option String)
    (shortlist : List String) (totalParticipants : Nat) : DB × Bool :=
  let db1 : DB := { db with games := db.games.map (setCompleted gameId winner shortlist) }
  if jsTruthy winner = true then
    match winner with
    | some w =>
      match insertWinner db1
          { game_id := gameId, wallet_address := w,
            total_participants := totalParticipants,
            shortlist_size := shortlist.length } with
      | some db2 => (db2, true)
      | none => (db1, false)
    | none => (db1, true)
  else (db1, true)

/-- Model of `ParticipantService.transactionExists`: global lookup of a transaction
signature across all games. -/
def transactionExists (db : DB) (sig : String) : Bool :=
  db.participants.any (fun p => p.transaction_sig == sig)

/-- The per-row effect of the `UPDATE games SET total_volume = total_volume
+ ?, prize_pool = prize_pool + ?` statement. -/
def volBump (gameId : Nat) (solAmount : Rat) (g : Game) : Game :=
  if g.game_id = gameId then
    { g with total_volume := g.total_volume + solAmount,
             prize_pool := g.prize_pool + solAmount * prizePercentage }
  else g

/-- Model of `ParticipantService.updateGameVolume`: adds the amount to the game's
volume and `amount * 0.001` to its prize pool. -/
def updateGameVolume (db : DB) (gameId : Nat) (solAmount : Rat) : DB :=
  { db with games := db.games.map (volBump gameId solAmount) }

/-- Model of `ParticipantService.addParticipant`: the `INSERT` fails distinctly on a
duplicate `transaction_sig` (the table's UNIQUE constraint), in which case
the caught `ER_DUP_ENTRY` is rethrown as "Transaction already exists" and
the volume update is never reached. -/
def addParticipant (db : DB) (gameId : Nat) (wallet sig : String)
    (solAmount : Rat) : Except String DB :=
  if transactionExists db sig then Except.error "Transaction already exists"
  else
    let db1 : DB :=
      { db with
        participants := db.participants ++
          [{ entry_id := db.nextEntryId, game_id := gameId,
             wallet_address := wallet, transaction_sig := sig,
             sol_amount := solAmount }],
        nextEntryId := db.nextEntryId + 1 }
    Except.ok (updateGameVolume db1 gameId solAmount)

/-- Model of `ParticipantService.getParticipantAddressesByGameId`. -/
def getParticipantAddressesByGameId (db : DB) (gameId : Nat) : List String :=
  (db.participants.filter (fun p => p.game_id == gameId)).map (fun p => p.wallet_address)

/-! ### Draw service (`src/services/drawService.js`) -/

/-- Helper for `jsSetDedup`: walks the list keeping the first occurrence of
each element, with `seen` accumulating what has already been emitted. -/
def jsSetDedupAux : List String → List String → List String
  | [], _ => []
  | a :: l, seen =>
    if a ∈ seen then jsSetDedupAux l seen else a :: jsSetDedupAux l (a :: seen)

/-- Model of `[...new Set(participants)]`: deduplication preserving first-occurrence
insertion order. -/
def jsSetDedup (l : List String) : List String := jsSetDedupAux l []

/-- Model of `[array[i], array[j]] = [array[j], array[i]]`: exchange the elements at
two (in-bounds) positions. -/
def listSwap (l : List String) (i j : Nat) : List String :=
  (l.set i (l.getD j "")).set j (l.getD i "")

/-- The loop of `DrawService.shuffleArray`, counting `i` down; at index
`i + 1` it swaps with `j = r (i+1) % (i+2)`, the model of
`Math.floor(Math.random() * (i + 2))`: a random tape `r` supplies the raw
draw and the modulus keeps it in the range `0..i+1`. -/
def shuffleFrom (r : Nat → Nat) : List String → Nat → List String
  | a, 0 => a
  | a, i + 1 => shuffleFrom r (listSwap a (i + 1) (r (i + 1) % (i + 2))) i

/-- Model of `DrawService.shuffleArray`: in-place Fisher-Yates shuffle from index
`length - 1` down to `1`. -/
def shuffleArray (l : List String) (r : Nat → Nat) : List String :=
  shuffleFrom r l (l.length - 1)

/-- Model of `DrawService.selectShortlist`: dedup, shuffle, then
`slice(0, Math.min(maxCount, shuffled.length))`. -/
def selectShortlist (participants : List String) (maxCount : Nat) (r : Nat → Nat) :
    List String :=
  let uniqueParticipants := jsSetDedup participants
  let shuffled := shuffleArray uniqueParticipants r
  shuffled.take (min maxCount shuffled.length)

/-- Model of `DrawService.selectRandomWinner`: `null` on an empty shortlist,
otherwise the element at the random index `k % length` (the model of
`Math.floor(Math.random() * shortlist.length)`). -/
def selectRandomWinner (shortlist : List String) (k : Nat) : Option String :=
  if shortlist.length = 0 then none
  else some (shortlist.getD (k % shortlist.length) "")

/-- The result object returned by `DrawService.executeDrawForGame`. -/
structure DrawResult where
  winner : Option String
  shortlist : List String
deriving DecidableEq, Repr

/-- Model of `DrawService.executeDrawForGame`: with no participants it completes the
game with no winner; otherwise it builds the shortlist, picks the winner,
and completes the game.  The `Bool` is `false` when `completeGame` threw
(duplicate winner row); the returned store reflects every SQL statement
that ran before the throw. -/
def executeDrawForGame (db : DB) (gameId : Nat) (r : Nat → Nat) (k : Nat) :
    DB × DrawResult × Bool :=
  let participants := getParticipantAddressesByGameId db gameId
  if participants.length = 0 then
    let res := completeGame db gameId none [] 0
    (res.1, ⟨none, []⟩, res.2)
  else
    let shortlist := selectShortlist participants 25 r
    let winner := selectRandomWinner shortlist k
    let res := completeGame db gameId winner shortlist participants.length
    (res.1, ⟨winner, shortlist⟩, res.2)

/-! ### Scheduler (`src/services/scheduler.js`) -/

/-- Model of `Scheduler.executeGameDraw`: runs the draw and catches (logs) any
error, so the caller always continues with the resulting store. -/
def executeGameDraw (db : DB) (gameId : Nat) (r : Nat → Nat) (k : Nat) : DB :=
  (executeDrawForGame db gameId r k).1

/-- One firing of the scheduler cron job: draw every expired game (oldest
logic per game, errors swallowed by `executeGameDraw`), then
unconditionally create one new game.  `r`/`k` supply a random tape per
position in the expired list. -/
def schedulerTick (db : DB) (now : Int) (r : Nat → Nat → Nat) (k : Nat → Nat) : DB :=
  let expired := getExpiredGames db now
  let db1 := (expired.foldl
    (fun acc g => (executeGameDraw acc.1 g.game_id (r acc.2) (k acc.2), acc.2 + 1))
    (db, 0)).1
  (createNewGame db1 now).1

/-- Model of `Scheduler.createInitialGame`: create a game only when none is running;
when the running game has already expired, draw it (without creating a
replacement). -/
def createInitialGame (db : DB) (now : Int) (r : Nat → Nat) (k : Nat) : DB :=
  match getCurrentGame db with
  | none => (createNewGame db now).1
  | some currentGame =>
    if currentGame.end_time ≤ now ∧ currentGame.status = GameStatus.running then
      executeGameDraw db currentGame.game_id r k
    else db

/-! ### Solana listener (transaction ingestion pipeline) -/

/-- The `meta` object of a fetched transaction: ledger-reported error and
the lamport balance arrays (JS integers, exact below 2^53). -/
structure TxMeta where
  err : Option String
  preBalances : List Int
  postBalances : List Int
deriving DecidableEq, Repr

/-- A fetched transaction: the legacy message carries `accountKeys`, the
versioned one `staticAccountKeys`. -/
structure Tx where
  meta : Option TxMeta
  accountKeys : Option (List String)
  staticAccountKeys : Option (List String)
deriving DecidableEq, Repr

/-- Model of `parseFloat(process.env.MIN_SOL_AMOUNT) || 0.040`: the default minimum
qualifying amount, in SOL.  (In IEEE doubles `0.04 * 1e9` rounds to exactly
`40000000`, the same value as the exact rational product, so rational
arithmetic is a faithful model of the source's computation.) -/
def minSolAmountDefault : Rat := 1 / 25

/-- Model of `SolanaListener.validateTransaction`: the transaction must have
succeeded (`meta.err === null`), carry balance arrays, and the fee payer's
lamport delta `preBalances[0] - postBalances[0]` must be at least
`minSolAmount * 1e9`. -/
def validateTransaction (minSolAmount : Rat) (tx : Tx) : Bool :=
  match tx.meta with
  | none => false
  | some m =>
    if m.err ≠ none then false
    else if m.preBalances.length = 0 ∨ m.postBalances.length = 0 then false
    else
      let minLamports : Rat := minSolAmount * 1000000000
      let preBalance := m.preBalances.getD 0 0
      let postBalance := m.postBalances.getD 0 0
      decide ((↑(preBalance - postBalance) : Rat) ≥ minLamports)

/-- Fee-payer address resolution: `message.accountKeys[0]` for legacy
transactions, else `message.staticAccountKeys[0]`; `none` when neither
yields an address (including the caught runtime error on an empty key
list). -/
def resolveWallet (tx : Tx) : Option String :=
  match tx.accountKeys with
  | some keys => keys.head?
  | none =>
    match tx.staticAccountKeys with
    | some keys => keys.head?
    | none => none

/-- How a `processTransaction` call for one signature ended; every outcome
except `admitted` leaves the store untouched, and none of them propagates
an error to the polling loop. -/
inductive AdmitOutcome where
  | admitted
  | skippedDuplicate
  | skippedIncomplete
  | skippedInvalid
  | skippedNoWallet
  | skippedNoGame
deriving DecidableEq, Repr

/-- Model of `SolanaListener.processTransaction`: global dedup check, fetch detail
(`detail = none` models an unavailable or structurally incomplete fetch),
validate, resolve wallet, resolve the current running game, compute the
spent amount in SOL, then insert the participant; a duplicate-key failure
of the insert is caught ("Transaction already exists") and treated as a
skip. -/
def processTransaction (minSol : Rat) (db : DB) (sig : String) (detail : Option Tx) :
    DB × AdmitOutcome :=
  if transactionExists db sig then (db, AdmitOutcome.skippedDuplicate)
  else
    match detail with
    | none => (db, AdmitOutcome.skippedIncomplete)
    | some tx =>
      if validateTransaction minSol tx = false then (db, AdmitOutcome.skippedInvalid)
      else
        match resolveWallet tx with
        | none => (db, AdmitOutcome.skippedNoWallet)
        | some walletAddress =>
          match getCurrentGame db with
          | none => (db, AdmitOutcome.skippedNoGame)
          | some currentGame =>
            let m := tx.meta.getD ⟨none, [], []⟩
            let solAmountSpent : Rat :=
              (↑(m.preBalances.getD 0 0 - m.postBalances.getD 0 0) : Rat) / 1000000000
            match addParticipant db currentGame.game_id walletAddress sig solAmountSpent with
            | Except.ok db1 => (db1, AdmitOutcome.admitted)
            | Except.error _ => (db, AdmitOutcome.skippedDuplicate)

/-- The commit half of an admission: the `addParticipant` call of
`processTransaction` against a game id resolved earlier.  The orchestrator
timer can interleave between the `getCurrentGame` read and this store
write (the two `await` points), so the raced write is modelled as its own
step; a duplicate-key error is caught and leaves the store unchanged. -/
def admitCommit (db : DB) (gameId : Nat) (wallet sig : String) (amt : Rat) : DB :=
  match addParticipant db gameId wallet sig amt with
  | Except.ok db1 => db1
  | Except.error _ => db

/-- Model of `SolanaListener` poller state: the last-processed slot marker and the
consecutive-failure counter. -/
structure ListenerState where
  lastProcessedSlot : Nat
  retryCount : Nat
deriving DecidableEq, Repr

/-- One signature entry returned by `getSignaturesForAddress`. -/
structure SigInfo where
  signature : String
  slot : Nat
deriving DecidableEq, Repr

/-- What the ledger RPC returns during one poll tick: `none` models a call
that still failed after its retries, and `details` gives the
`getTransaction` result per signature. -/
structure LedgerView where
  currentSlot : Option Nat
  signatures : Option (List SigInfo)
  details : String → Option Tx

/-- The `maxRetries = 3` / failure-counter bump of
`checkForNewTransactions`'s catch block. -/
def errorBump (st : ListenerState) : ListenerState :=
  if st.retryCount < 3 then { st with retryCount := st.retryCount + 1 }
  else { st with retryCount := 0 }

/-- Model of `SolanaListener.checkForNewTransactions`: one poll tick.  Returns the
store, the new listener state, and the list of signatures attempted.  The
marker is assigned `currentSlot` only on the success path, after the loop
has attempted every fetched signature newer than the old marker; every
failure path leaves it untouched. -/
def checkForNewTransactions (minSol : Rat) (db : DB) (st : ListenerState)
    (lv : LedgerView) : DB × ListenerState × List String :=
  match lv.currentSlot with
  | none => (db, errorBump st, [])
  | some currentSlot =>
    if currentSlot ≤ st.lastProcessedSlot then (db, st, [])
    else
      match lv.signatures with
      | none => (db, errorBump st, [])
      | some sigs =>
        let toProcess := sigs.filter (fun s => decide (st.lastProcessedSlot < s.slot))
        let db1 := toProcess.foldl
          (fun acc s => (processTransaction minSol acc s.signature (lv.details s.signature)).1) db
        (db1, { lastProcessedSlot := currentSlot, retryCount := 0 },
         toProcess.map (fun s => s.signature))

/-- A sequence of poll ticks (state threading of the 15-second interval). -/
def runPollTicks (minSol : Rat) (db : DB) (st : ListenerState)
    (lvs : List LedgerView) : DB × ListenerState :=
  lvs.foldl (fun acc lv =>
    let r := checkForNewTransactions minSol acc.1 acc.2 lv
    (r.1, r.2.1)) (db, st)

/-! ### Operation traces

The store is touched by four kinds of atomic store-visiting operations:
the bootstrap path, a scheduler tick, a full `processTransaction` run, and
the commit half of an admission whose game was resolved before an
interleaved closure (the §5 race of the spec: the listener's
`getCurrentGame` read and its `addParticipant` write are separate `await`
points). -/
inductive Step where
  | bootstrap (now : Int) (r : Nat → Nat) (k : Nat)
  | tick (now : Int) (r : Nat → Nat → Nat) (k : Nat → Nat)
  | ingest (minSol : Rat) (sig : String) (detail : Option Tx)
  | lateCommit (gameId : Nat) (wallet sig : String) (amt : Rat)

/-- Apply one operation to the store. -/
def applyStep (db : DB) : Step → DB
  | Step.bootstrap now r k => createInitialGame db now r k
  | Step.tick now r k => schedulerTick db now r k
  | Step.ingest minSol sig detail => (processTransaction minSol db sig detail).1
  | Step.lateCommit gameId wallet sig amt => admitCommit db gameId wallet sig amt

/-- Apply a sequence of operations. -/
def applyTrace (db : DB) (steps : List Step) : DB :=
  steps.foldl applyStep db

/-- Number of `running` games in the store. -/
def runningCount (db : DB) : Nat :=
  db.games.countP (fun g => g.status == GameStatus.running)

/-- The spec's single-open-game invariant. -/
def AtMostOneOpen (db : DB) : Prop := runningCount db ≤ 1

/-- A tick is well-timed when it fires strictly after the end time of every
currently running game (the cron fiber observes `end_time < now`). -/
def TickSafe (db : DB) : Step → Prop
  | Step.tick now _ _ => ∀ g ∈ runningGames db, g.end_time < now
  | _ => True

/-- Every tick of the trace is well-timed at the store state it runs
against. -/
def SafeTrace : DB → List Step → Prop
  | _, [] => True
  | db, s :: rest => TickSafe db s ∧ SafeTrace (applyStep db s) rest

/-- Admission steps carry a non-negative amount (the listener only admits
deltas of at least the configured minimum, which is positive by default). -/
def AmtSafe : Step → Prop
  | Step.ingest minSol _ _ => 0 ≤ minSol
  | Step.lateCommit _ _ _ amt => 0 ≤ amt
  | _ => True

/-- Per-game evolution along any store operation: identity, start and end
times are immutable, `completed` is absorbing, and volume and prize pool
never decrease. -/
def Evolves (g g' : Game) : Prop :=
  g'.game_id = g.game_id ∧ g'.start_time = g.start_time ∧ g'.end_time = g.end_time ∧
  (g.status = GameStatus.completed → g'.status = GameStatus.completed) ∧
  g.total_volume ≤ g'.total_volume ∧ g.prize_pool ≤ g'.prize_pool

/-- The store after an operation: every pre-existing game row has evolved
(in order), and only new rows are appended after them. -/
def EvolveStep (db db' : DB) : Prop :=
  ∃ pre tail, db'.games = pre ++ tail ∧ List.Forall₂ Evolves db.games pre

/-- The empty store (`AUTO_INCREMENT` counters start at 1). -/
def emptyDB : DB := { games := [], participants := [], winners := [], nextGameId := 1, nextEntryId := 1 }

/-- Winner rows recorded for one game. -/
def winnerRowsFor (db : DB) (gameId : Nat) : List WinnerRow :=
  db.winners.filter (fun x => x.game_id == gameId)

/-- Number of participant rows carrying one transaction signature (the
globally unique ledger identifier). -/
def sigCount (db : DB) (sig : String) : Nat :=
  db.participants.countP (fun p => p.transaction_sig == sig)

/-- Total recorded volume of the rows of one game. -/
def volumeOf (db : DB) (gameId : Nat) : Rat :=
  ((db.games.filter (fun g => g.game_id == gameId)).map (fun g => g.total_volume)).sum

/-- Total prize pool of the rows of one game. -/
def prizeOf (db : DB) (gameId : Nat) : Rat :=
  ((db.games.filter (fun g => g.game_id == gameId)).map (fun g => g.prize_pool)).sum

/-- The source of randomness a draw implementation calls. -/
inductive RandomnessSource where
  | mathRandom
  | cryptoStrong
deriving DecidableEq, Repr

/-- Both `DrawService.selectRandomWinner` and `DrawService.shuffleArray`
call `Math.random()` (a seedable xorshift128+ pseudo-random generator),
not `crypto.randomBytes`/`crypto.getRandomValues`. -/
def drawRandomnessSource : RandomnessSource := RandomnessSource.mathRandom

/-- A validated candidate transaction whose fee payer spent `spent`
lamports: successful, with balance deltas and a legacy account list. -/
def scenarioTx (spent : Int) : Tx :=
  { meta := some { err := none, preBalances := [spent], postBalances := [0] },
    accountKeys := some ["payer"], staticAccountKeys := none }

/-! ### Ideal-randomness tapes for the draw engine

Under the ideal uniform-randomness model, the loop iteration of
`shuffleArray` at index `i` consumes an independent uniform draw from
`{0, …, i}` (`Math.floor(Math.random() * (i + 1))`).  A complete run over
a list of length `n` is therefore described by a tape assigning to every
index `i < n` a value in `Fin (i + 1)`; there are `n!` such tapes, all
equally likely. -/
abbrev FYTape (n : Nat) := (i : Fin n) → Fin (i.1 + 1)

/-- Read a tape as the raw random stream fed to `shuffleArray`: tape
values are already in range, so the `% (i + 1)` reduction of the model is
the identity on them. -/
def tapeFun {n : Nat} (t : FYTape n) : Nat → Nat :=
  fun i => if h : i < n then (t ⟨i, h⟩).1 else 0

/-- Restriction of a tape to the indices below `n + 1`: the draws consumed
by the shuffle after its first iteration. -/
def restrictTape {n : Nat} (t : FYTape (n + 2)) : FYTape (n + 1) :=
  fun i => t ⟨i.1, by omega⟩

/-- The first draw a tape supplies to a length-`n + 2` shuffle. -/
def topTape {n : Nat} (t : FYTape (n + 2)) : Fin (n + 2) :=
  t ⟨n + 1, by omega⟩

/-- Assemble a tape from its restriction and its first draw. -/
def joinTape {n : Nat} (tl : FYTape (n + 1)) (j : Fin (n + 2)) : FYTape (n + 2) :=
  fun i => if h : i.1 < n + 1 then tl ⟨i.1, h⟩
           else Fin.cast (by have := i.isLt; omega) j

/-! ### Concrete fixtures for counterexamples and witnesses -/

/-- Status of the (first) game row carrying an id. -/
def statusOf (db : DB) (gameId : Nat) : Option GameStatus :=
  (db.games.find? (fun g => g.game_id == gameId)).map (fun g => g.status)

/-- Winner column of the (first) game row carrying an id. -/
def winnerOf (db : DB) (gameId : Nat) : Option (Option String) :=
  (db.games.find? (fun g => g.game_id == gameId)).map (fun g => g.winner_address)

/-- Volume column of the (first) game row carrying an id. -/
def volumeCell (db : DB) (gameId : Nat) : Option Rat :=
  (db.games.find? (fun g => g.game_id == gameId)).map (fun g => g.total_volume)

/-- Prize-pool column of the (first) game row carrying an id. -/
def prizeCell (db : DB) (gameId : Nat) : Option Rat :=
  (db.games.find? (fun g => g.game_id == gameId)).map (fun g => g.prize_pool)

/-- The constant-zero random stream. -/
def zeroR : Nat → Nat := fun _ => 0

/-- The constant-one random stream. -/
def oneR : Nat → Nat := fun _ => 1

/-- A per-game family of constant-zero random streams. -/
def zeroR2 : Nat → Nat → Nat := fun _ _ => 0

/-- A per-game family of zero winner indices. -/
def zeroK : Nat → Nat := fun _ => 0

/-- A random stream agreeing with `zeroR` on the indices a length-2
shuffle consumes, and differing elsewhere. -/
def altR : Nat → Nat := fun m => if m ≤ 1 then 0 else 99

/-- Bootstrap at minute 5, scheduler tick at minute 20 (the cron fires on
wall-clock multiples of the round duration, the bootstrap time is
arbitrary): the game created at minute 5 has not expired at minute 20, yet
the tick creates another one. -/
def c1BadTrace : List Step :=
  [Step.bootstrap 300000 zeroR 0, Step.tick 1200000 zeroR2 zeroK]

/-- Bootstrap at time 0, tick at minute 21 2/3 — strictly after the first
round's end, the well-timed schedule. -/
def c1GoodTrace : List Step :=
  [Step.bootstrap 0 zeroR 0, Step.tick 1300000 zeroR2 zeroK]

/-- A store holding one running game (id 1) with two participants. -/
def dbTwoEntrants : DB :=
  { games := [{ game_id := 1, start_time := 0, end_time := 10,
                status := GameStatus.running, winner_address := none,
                draw_shortlist := [], total_volume := 0, prize_pool := 0 }],
    participants :=
      [{ entry_id := 1, game_id := 1, wallet_address := "a",
         transaction_sig := "s1", sol_amount := 1 },
       { entry_id := 2, game_id := 1, wallet_address := "b",
         transaction_sig := "s2", sol_amount := 1 }],
    winners := [], nextGameId := 2, nextEntryId := 3 }

/-- A store holding one running game (id 1, ends at time 10) and nothing
else. -/
def dbOneRunning : DB :=
  { games := [{ game_id := 1, start_time := 0, end_time := 10,
                status := GameStatus.running, winner_address := none,
                draw_shortlist := [], total_volume := 0, prize_pool := 0 }],
    participants := [], winners := [], nextGameId := 2, nextEntryId := 1 }

/-! ## Store-structure lemmas -/

theorem insertWinner_games {db : DB} {w : WinnerRow} {db2 : DB}
    (h : insertWinner db w = some db2) : db2.games = db.games := by
  unfold insertWinner at h
  split at h
  · exact absurd h (by simp)
  · cases h
    rfl

theorem completeGame_games (db : DB) (gameId : Nat) (winner : Option String)
    (shortlist : List String) (n : Nat) :
    ((completeGame db gameId winner shortlist n).1).games
      = db.games.map (setCompleted gameId winner shortlist) := by
  unfold completeGame
  dsimp only
  split
  · split
    · split
      · next db2 h => exact insertWinner_games h
      · rfl
    · rfl
  · rfl

theorem completeGame_winners_of_none (db : DB) (gameId : Nat)
    (shortlist : List String) (n : Nat) :
    ((completeGame db gameId none shortlist n).1).winners = db.winners := by
  unfold completeGame
  simp [jsTruthy]

theorem executeGameDraw_games (db : DB) (gameId : Nat) (r : Nat → Nat) (k : Nat) :
    ∃ w sl, (executeGameDraw db gameId r k).games
      = db.games.map (setCompleted gameId w sl) := by
  unfold executeGameDraw executeDrawForGame
  dsimp only
  split
  · exact ⟨none, [], completeGame_games ..⟩
  · exact ⟨_, _, completeGame_games ..⟩

@[simp] theorem setCompleted_game_id (gameId : Nat) (w : Option String)
    (sl : List String) (g : Game) :
    (setCompleted gameId w sl g).game_id = g.game_id := by
  unfold setCompleted
  split <;> rfl

@[simp] theorem setCompleted_end_time (gameId : Nat) (w : Option String)
    (sl : List String) (g : Game) :
    (setCompleted gameId w sl g).end_time = g.end_time := by
  unfold setCompleted
  split <;> rfl

@[simp] theorem setCompleted_start_time (gameId : Nat) (w : Option String)
    (sl : List String) (g : Game) :
    (setCompleted gameId w sl g).start_time = g.start_time := by
  unfold setCompleted
  split <;> rfl

@[simp] theorem setCompleted_total_volume (gameId : Nat) (w : Option String)
    (sl : List String) (g : Game) :
    (setCompleted gameId w sl g).total_volume = g.total_volume := by
  unfold setCompleted
  split <;> rfl

@[simp] theorem setCompleted_prize_pool (gameId : Nat) (w : Option String)
    (sl : List String) (g : Game) :
    (setCompleted gameId w sl g).prize_pool = g.prize_pool := by
  unfold setCompleted
  split <;> rfl

theorem running_of_setCompleted {gameId : Nat} {w : Option String}
    {sl : List String} {g : Game}
    (h : (setCompleted gameId w sl g).status = GameStatus.running) :
    g.status = GameStatus.running ∧ g.game_id ≠ gameId := by
  unfold setCompleted at h
  split at h
  · exact absurd h (by simp)
  · next hne => exact ⟨h, hne⟩

theorem setCompleted_of_id {gameId : Nat} {w : Option String} {sl : List String}
    {g : Game} (h : g.game_id = gameId) :
    (setCompleted gameId w sl g).status = GameStatus.completed := by
  unfold setCompleted
  simp [h]

@[simp] theorem volBump_game_id (gameId : Nat) (a : Rat) (g : Game) :
    (volBump gameId a g).game_id = g.game_id := by
  unfold volBump
  split <;> rfl

@[simp] theorem volBump_status (gameId : Nat) (a : Rat) (g : Game) :
    (volBump gameId a g).status = g.status := by
  unfold volBump
  split <;> rfl

@[simp] theorem volBump_end_time (gameId : Nat) (a : Rat) (g : Game) :
    (volBump gameId a g).end_time = g.end_time := by
  unfold volBump
  split <;> rfl

@[simp] theorem volBump_start_time (gameId : Nat) (a : Rat) (g : Game) :
    (volBump gameId a g).start_time = g.start_time := by
  unfold volBump
  split <;> rfl

/-! ## `getCurrentGame` and `runningCount` lemmas -/

theorem foldl_laterStarted_isSome (l : List Game) (h : Game) :
    (l.foldl laterStarted (some h)).isSome = true := by
  induction l generalizing h with
  | nil => rfl
  | cons a l ih =>
    simp only [List.foldl_cons, laterStarted]
    split
    · exact ih a
    · exact ih h

theorem getCurrentGame_eq_none_iff (db : DB) :
    getCurrentGame db = none ↔ runningGames db = [] := by
  constructor
  · intro h
    unfold getCurrentGame at h
    cases hr : runningGames db with
    | nil => rfl
    | cons a l =>
      rw [hr] at h
      simp only [List.foldl_cons] at h
      have ha : laterStarted none a = some a := rfl
      rw [ha] at h
      have hs := foldl_laterStarted_isSome l a
      rw [h] at hs
      simp at hs
  · intro h
    unfold getCurrentGame
    rw [h]
    rfl

theorem foldl_laterStarted_mem (l : List Game) :
    ∀ (acc : Option Game) (g : Game),
      l.foldl laterStarted acc = some g → g ∈ l ∨ acc = some g := by
  induction l with
  | nil =>
    intro acc g h
    exact Or.inr h
  | cons a l ih =>
    intro acc g h
    simp only [List.foldl_cons] at h
    rcases ih _ _ h with hm | he
    · exact Or.inl (List.mem_cons_of_mem _ hm)
    · cases acc with
      | none =>
        simp only [laterStarted] at he
        cases he
        exact Or.inl (List.mem_cons_self _ _)
      | some h0 =>
        simp only [laterStarted] at he
        split at he
        · cases he
          exact Or.inl (List.mem_cons_self _ _)
        · exact Or.inr he

theorem getCurrentGame_mem {db : DB} {g : Game} (h : getCurrentGame db = some g) :
    g ∈ db.games ∧ g.status = GameStatus.running := by
  rcases foldl_laterStarted_mem (runningGames db) none g h with hm | he
  · rw [runningGames, List.mem_filter] at hm
    exact ⟨hm.1, by simpa using hm.2⟩
  · simp at he

theorem runningCount_eq_countP (db : DB) :
    runningCount db = db.games.countP (fun g => g.status == GameStatus.running) := rfl

theorem runningCount_updateGameVolume (db : DB) (gid : Nat) (a : Rat) :
    runningCount (updateGameVolume db gid a) = runningCount db := by
  unfold runningCount updateGameVolume
  simp only [List.countP_map]
  exact List.countP_congr (by intro x hx; simp [Function.comp, volBump_status])

theorem runningCount_map_setCompleted_le (db : DB) (gid : Nat)
    (w : Option String) (sl : List String) :
    (db.games.map (setCompleted gid w sl)).countP (fun g => g.status == GameStatus.running)
      ≤ runningCount db := by
  unfold runningCount
  rw [List.countP_map]
  apply List.countP_mono_left
  intro x hx hp
  have hx' : (setCompleted gid w sl x).status = GameStatus.running := by
    simpa using hp
  simp [(running_of_setCompleted hx').1]

theorem runningCount_executeGameDraw_le (db : DB) (gid : Nat) (r : Nat → Nat) (k : Nat) :
    runningCount (executeGameDraw db gid r k) ≤ runningCount db := by
  obtain ⟨w, sl, hg⟩ := executeGameDraw_games db gid r k
  rw [runningCount_eq_countP, hg]
  exact runningCount_map_setCompleted_le db gid w sl

theorem runningCount_createNewGame (db : DB) (now : Int) :
    runningCount (createNewGame db now).1 = runningCount db + 1 := by
  unfold runningCount createNewGame
  simp [List.countP_append, List.countP_cons]

/-! ## Scheduler tick lemmas -/

theorem foldDraw_running (r : Nat → Nat → Nat) (k : Nat → Nat) (l : List Game) :
    ∀ (db : DB) (n : Nat) (g' : Game),
      g' ∈ ((l.foldl
          (fun acc g => (executeGameDraw acc.1 g.game_id (r acc.2) (k acc.2), acc.2 + 1))
          (db, n)).1).games →
      g'.status = GameStatus.running →
      ∃ g ∈ db.games, g.game_id = g'.game_id ∧ g.status = GameStatus.running ∧
        ∀ e ∈ l, e.game_id ≠ g'.game_id := by
  induction l with
  | nil =>
    intro db n g' hm hs
    exact ⟨g', hm, rfl, hs, by simp⟩
  | cons e l ih =>
    intro db n g' hm hs
    simp only [List.foldl_cons] at hm
    obtain ⟨g₁, hg₁m, hid, hrun, hrest⟩ := ih _ _ _ hm hs
    obtain ⟨w, sl, hgames⟩ := executeGameDraw_games db e.game_id (r n) (k n)
    rw [hgames] at hg₁m
    obtain ⟨g₀, hg₀m, rfl⟩ := List.mem_map.mp hg₁m
    obtain ⟨hrun₀, hne⟩ := running_of_setCompleted hrun
    rw [setCompleted_game_id] at hid
    refine ⟨g₀, hg₀m, hid, hrun₀, ?_⟩
    intro e' he'
    rcases List.mem_cons.mp he' with rfl | he'
    · rw [← hid]
      exact fun hc => hne hc.symm
    · exact hrest e' he'

theorem schedulerTick_runningCount (db : DB) (now : Int)
    (r : Nat → Nat → Nat) (k : Nat → Nat)
    (h : ∀ g ∈ runningGames db, g.end_time < now) :
    runningCount (schedulerTick db now r k) = 1 := by
  unfold schedulerTick
  dsimp only
  rw [runningCount_createNewGame]
  have h0 : runningCount ((List.foldl
      (fun acc g => (executeGameDraw acc.1 g.game_id (r acc.2) (k acc.2), acc.2 + 1))
      (db, 0) (getExpiredGames db now)).1) = 0 := by
    rw [runningCount_eq_countP, List.countP_eq_zero]
    intro g' hm hs'
    have hs : g'.status = GameStatus.running := by simpa using hs'
    obtain ⟨g, hgm, hid, hrun, hall⟩ :=
      foldDraw_running r k (getExpiredGames db now) db 0 g' hm hs
    have hg_run : g ∈ runningGames db := by
      rw [runningGames, List.mem_filter]
      exact ⟨hgm, by simp [hrun]⟩
    have hg_exp : g ∈ getExpiredGames db now := by
      rw [getExpiredGames, List.mem_filter]
      exact ⟨hgm, by simp [hrun, h g hg_run]⟩
    exact hall g hg_exp hid
  rw [h0]

theorem two_running_le_count {db : DB} {g g' : Game}
    (hg : g ∈ db.games) (hg' : g' ∈ db.games)
    (hrg : g.status = GameStatus.running) (hrg' : g'.status = GameStatus.running)
    (hne : g.game_id ≠ g'.game_id) : 2 ≤ runningCount db := by
  have hne' : g ≠ g' := fun hc => hne (by rw [hc])
  have hmf : g ∈ runningGames db := by
    rw [runningGames, List.mem_filter]
    exact ⟨hg, by simp [hrg]⟩
  have hmf' : g' ∈ runningGames db := by
    rw [runningGames, List.mem_filter]
    exact ⟨hg', by simp [hrg']⟩
  have hlen : runningCount db = (runningGames db).length := by
    rw [runningCount_eq_countP, List.countP_eq_length_filter]
    rfl
  obtain ⟨s, t, hst⟩ := List.append_of_mem hmf
  rw [hst] at hmf'
  have hm2 : g' ∈ s ++ t := by
    rcases List.mem_append.mp hmf' with hs | hs
    · exact List.mem_append.mpr (Or.inl hs)
    · rcases List.mem_cons.mp hs with rfl | hs
      · exact absurd rfl hne'
      · exact List.mem_append.mpr (Or.inr hs)
  rw [hlen, hst]
  have : 1 ≤ (s ++ t).length :=
    List.length_pos.mpr (by intro hc; rw [hc] at hm2; simp at hm2)
  simp only [List.length_append, List.length_cons] at this ⊢
  omega

theorem runningCount_eq_length (db : DB) :
    runningCount db = (runningGames db).length := by
  rw [runningCount_eq_countP, List.countP_eq_length_filter]
  rfl

theorem runningCount_addParticipant_ok {db db' : DB} {gid : Nat} {w sig : String}
    {a : Rat} (h : addParticipant db gid w sig a = Except.ok db') :
    runningCount db' = runningCount db := by
  unfold addParticipant at h
  split at h
  · simp at h
  · cases h
    rw [runningCount_updateGameVolume]
    rfl

theorem runningCount_admitCommit (db : DB) (gid : Nat) (w sig : String) (a : Rat) :
    runningCount (admitCommit db gid w sig a) = runningCount db := by
  unfold admitCommit
  split
  · next db1 heq => exact runningCount_addParticipant_ok heq
  · rfl

theorem runningCount_processTransaction (minSol : Rat) (db : DB) (sig : String)
    (detail : Option Tx) :
    runningCount (processTransaction minSol db sig detail).1 = runningCount db := by
  unfold processTransaction
  dsimp only
  split
  · rfl
  · split
    · rfl
    · split
      · rfl
      · split
        · rfl
        · split
          · rfl
          · split
            · next db1 heq => exact runningCount_addParticipant_ok heq
            · rfl

theorem atMostOne_createInitialGame {db : DB} (h : AtMostOneOpen db)
    (now : Int) (r : Nat → Nat) (k : Nat) :
    AtMostOneOpen (createInitialGame db now r k) := by
  cases hg : getCurrentGame db with
  | none =>
    have h0 : runningGames db = [] := (getCurrentGame_eq_none_iff db).1 hg
    unfold createInitialGame
    rw [hg]
    unfold AtMostOneOpen
    rw [runningCount_createNewGame, runningCount_eq_length, h0]
    simp
  | some g =>
    unfold createInitialGame
    rw [hg]
    dsimp only
    split
    · exact le_trans (runningCount_executeGameDraw_le db g.game_id r k) h
    · exact h

theorem atMostOne_applyStep {db : DB} {s : Step} (h : AtMostOneOpen db)
    (hts : TickSafe db s) : AtMostOneOpen (applyStep db s) := by
  cases s with
  | bootstrap now r k => exact atMostOne_createInitialGame h now r k
  | tick now r k =>
    unfold AtMostOneOpen applyStep
    rw [schedulerTick_runningCount db now r k hts]
  | ingest minSol sig detail =>
    unfold AtMostOneOpen applyStep
    rw [runningCount_processTransaction]
    exact h
  | lateCommit gid w sig a =>
    unfold AtMostOneOpen applyStep
    rw [runningCount_admitCommit]
    exact h

/-! ## Game-evolution lemmas -/

theorem evolves_refl (g : Game) : Evolves g g :=
  ⟨rfl, rfl, rfl, id, le_refl _, le_refl _⟩

theorem evolves_trans {a b c : Game} (h1 : Evolves a b) (h2 : Evolves b c) :
    Evolves a c := by
  obtain ⟨i1, s1, e1, c1, v1, p1⟩ := h1
  obtain ⟨i2, s2, e2, c2, v2, p2⟩ := h2
  exact ⟨i2.trans i1, s2.trans s1, e2.trans e1, fun h => c2 (c1 h),
    v1.trans v2, p1.trans p2⟩

theorem evolves_setCompleted (gid : Nat) (w : Option String) (sl : List String)
    (g : Game) : Evolves g (setCompleted gid w sl g) := by
  refine ⟨setCompleted_game_id .., setCompleted_start_time ..,
    setCompleted_end_time .., ?_, ?_, ?_⟩
  · intro _
    unfold setCompleted
    split
    · rfl
    · assumption
  · rw [setCompleted_total_volume]
  · rw [setCompleted_prize_pool]

theorem evolves_volBump (gid : Nat) {a : Rat} (ha : 0 ≤ a) (g : Game) :
    Evolves g (volBump gid a g) := by
  refine ⟨volBump_game_id .., volBump_start_time .., volBump_end_time ..,
    ?_, ?_, ?_⟩
  · intro h
    rw [volBump_status]
    exact h
  · unfold volBump
    split
    · simp [ha]
    · exact le_refl _
  · unfold volBump
    split
    · have : 0 ≤ a * prizePercentage := by
        have hp : (0 : Rat) ≤ prizePercentage := by norm_num [prizePercentage]
        exact mul_nonneg ha hp
      simp [this]
    · exact le_refl _

theorem forall₂_evolves_map {l : List Game} {f : Game → Game}
    (h : ∀ a, Evolves a (f a)) : List.Forall₂ Evolves l (l.map f) := by
  induction l with
  | nil => exact List.Forall₂.nil
  | cons a l ih => exact List.Forall₂.cons (h a) ih

theorem forall₂_evolves_trans :
    ∀ {l m n : List Game}, List.Forall₂ Evolves l m → List.Forall₂ Evolves m n →
      List.Forall₂ Evolves l n := by
  intro l
  induction l with
  | nil =>
    intro m n h1 h2
    cases h1
    cases h2
    exact List.Forall₂.nil
  | cons a l ih =>
    intro m n h1 h2
    cases h1 with
    | cons hab h1' =>
      cases h2 with
      | cons hbc h2' => exact List.Forall₂.cons (evolves_trans hab hbc) (ih h1' h2')

theorem forall₂_evolves_append_split :
    ∀ {l1 l2 m : List Game}, List.Forall₂ Evolves (l1 ++ l2) m →
      ∃ m1 m2, m = m1 ++ m2 ∧ List.Forall₂ Evolves l1 m1 ∧ List.Forall₂ Evolves l2 m2 := by
  intro l1
  induction l1 with
  | nil =>
    intro l2 m h
    exact ⟨[], m, rfl, List.Forall₂.nil, h⟩
  | cons a l1 ih =>
    intro l2 m h
    cases h with
    | cons hab h' =>
      obtain ⟨m1, m2, rfl, f1, f2⟩ := ih h'
      exact ⟨_ :: m1, m2, rfl, List.Forall₂.cons hab f1, f2⟩

theorem evolveStep_refl (db : DB) : EvolveStep db db :=
  ⟨db.games, [], by simp, List.forall₂_same.mpr (fun g _ => evolves_refl g)⟩

theorem evolveStep_trans {a b c : DB} (h1 : EvolveStep a b) (h2 : EvolveStep b c) :
    EvolveStep a c := by
  obtain ⟨p1, t1, hb, f1⟩ := h1
  obtain ⟨p2, t2, hc, f2⟩ := h2
  rw [hb] at f2
  obtain ⟨m1, m2, hm, f21, f22⟩ := forall₂_evolves_append_split f2
  exact ⟨m1, m2 ++ t2, by rw [hc, hm, List.append_assoc], forall₂_evolves_trans f1 f21⟩

theorem evolveStep_of_map {db db' : DB} {f : Game → Game}
    (h : ∀ g, Evolves g (f g)) (hg : db'.games = db.games.map f) :
    EvolveStep db db' :=
  ⟨db.games.map f, [], by rw [hg, List.append_nil], forall₂_evolves_map h⟩

theorem evolveStep_of_append {db db' : DB} {new : List Game}
    (hg : db'.games = db.games ++ new) : EvolveStep db db' :=
  ⟨db.games, new, hg, List.forall₂_same.mpr (fun g _ => evolves_refl g)⟩

theorem evolveStep_executeGameDraw (db : DB) (gid : Nat) (r : Nat → Nat) (k : Nat) :
    EvolveStep db (executeGameDraw db gid r k) := by
  obtain ⟨w, sl, hg⟩ := executeGameDraw_games db gid r k
  exact evolveStep_of_map (evolves_setCompleted gid w sl) hg

theorem evolveStep_createNewGame (db : DB) (now : Int) :
    EvolveStep db (createNewGame db now).1 :=
  evolveStep_of_append rfl

theorem evolveStep_foldDraw (r : Nat → Nat → Nat) (k : Nat → Nat) (l : List Game) :
    ∀ (db : DB) (n : Nat),
      EvolveStep db ((l.foldl
        (fun acc g => (executeGameDraw acc.1 g.game_id (r acc.2) (k acc.2), acc.2 + 1))
        (db, n)).1) := by
  induction l with
  | nil =>
    intro db n
    exact evolveStep_refl db
  | cons e l ih =>
    intro db n
    simp only [List.foldl_cons]
    exact evolveStep_trans (evolveStep_executeGameDraw db e.game_id (r n) (k n)) (ih _ _)

theorem evolveStep_schedulerTick (db : DB) (now : Int)
    (r : Nat → Nat → Nat) (k : Nat → Nat) :
    EvolveStep db (schedulerTick db now r k) := by
  unfold schedulerTick
  dsimp only
  exact evolveStep_trans (evolveStep_foldDraw r k (getExpiredGames db now) db 0)
    (evolveStep_createNewGame _ now)

theorem evolveStep_createInitialGame (db : DB) (now : Int) (r : Nat → Nat) (k : Nat) :
    EvolveStep db (createInitialGame db now r k) := by
  unfold createInitialGame
  cases getCurrentGame db with
  | none => exact evolveStep_createNewGame db now
  | some g =>
    dsimp only
    split
    · exact evolveStep_executeGameDraw db g.game_id r k
    · exact evolveStep_refl db

theorem evolveStep_addParticipant {db db' : DB} {gid : Nat} {w sig : String}
    {a : Rat} (ha : 0 ≤ a) (h : addParticipant db gid w sig a = Except.ok db') :
    EvolveStep db db' := by
  unfold addParticipant at h
  split at h
  · simp at h
  · cases h
    exact evolveStep_of_map (evolves_volBump gid ha) rfl

theorem evolveStep_admitCommit (db : DB) (gid : Nat) (w sig : String) {a : Rat}
    (ha : 0 ≤ a) : EvolveStep db (admitCommit db gid w sig a) := by
  unfold admitCommit
  split
  · next db1 heq => exact evolveStep_addParticipant ha heq
  · exact evolveStep_refl db

theorem validate_spent_nonneg {minSol : Rat} {tx : Tx}
    (hm : 0 ≤ minSol) (hv : validateTransaction minSol tx = true) :
    0 ≤ ((↑((tx.meta.getD ⟨none, [], []⟩).preBalances.getD 0 0
        - (tx.meta.getD ⟨none, [], []⟩).postBalances.getD 0 0)) : Rat) / 1000000000 := by
  unfold validateTransaction at hv
  cases htx : tx.meta with
  | none =>
    rw [htx] at hv
    exact absurd hv (by simp)
  | some m =>
    rw [htx] at hv
    dsimp only at hv
    split at hv
    · exact absurd hv (by simp)
    · split at hv
      · exact absurd hv (by simp)
      · dsimp only [Option.getD]
        have hd : minSol * 1000000000 ≤
            (↑(m.preBalances.getD 0 0 - m.postBalances.getD 0 0) : Rat) :=
          of_decide_eq_true hv
        have h0 : (0 : Rat) ≤ minSol * 1000000000 := mul_nonneg hm (by norm_num)
        exact div_nonneg (le_trans h0 hd) (by norm_num)

theorem evolveStep_processTransaction (minSol : Rat) (db : DB) (sig : String)
    (detail : Option Tx) (hm : 0 ≤ minSol) :
    EvolveStep db (processTransaction minSol db sig detail).1 := by
  unfold processTransaction
  dsimp only
  split
  · exact evolveStep_refl db
  · split
    · exact evolveStep_refl db
    · split
      · exact evolveStep_refl db
      · next tx hvne =>
        have hv : validateTransaction minSol tx = true := by
          revert hvne
          cases validateTransaction minSol tx <;> simp
        split
        · exact evolveStep_refl db
        · split
          · exact evolveStep_refl db
          · split
            · next db1 heq =>
              exact evolveStep_addParticipant (validate_spent_nonneg hm hv) heq
            · exact evolveStep_refl db

theorem evolveStep_applyStep {db : DB} {s : Step} (h : AmtSafe s) :
    EvolveStep db (applyStep db s) := by
  cases s with
  | bootstrap now r k => exact evolveStep_createInitialGame db now r k
  | tick now r k => exact evolveStep_schedulerTick db now r k
  | ingest minSol sig detail => exact evolveStep_processTransaction minSol db sig detail h
  | lateCommit gid w sig a => exact evolveStep_admitCommit db gid w sig h

/-! ## Deduplication lemmas -/

theorem jsSetDedupAux_mem :
    ∀ (l seen : List String) (x : String),
      x ∈ jsSetDedupAux l seen ↔ x ∈ l ∧ x ∉ seen := by
  intro l
  induction l with
  | nil =>
    intro seen x
    simp [jsSetDedupAux]
  | cons a l ih =>
    intro seen x
    unfold jsSetDedupAux
    split
    · next ha =>
      rw [ih]
      constructor
      · rintro ⟨hx, hs⟩
        exact ⟨List.mem_cons_of_mem _ hx, hs⟩
      · rintro ⟨hx, hs⟩
        rcases List.mem_cons.mp hx with rfl | hx
        · exact absurd ha hs
        · exact ⟨hx, hs⟩
    · next ha =>
      rw [List.mem_cons, ih]
      constructor
      · rintro (rfl | ⟨hx, hs⟩)
        · exact ⟨List.mem_cons_self _ _, ha⟩
        · refine ⟨List.mem_cons_of_mem _ hx, fun hc => hs (List.mem_cons_of_mem _ hc)⟩
      · rintro ⟨hx, hs⟩
        by_cases hxa : x = a
        · exact Or.inl hxa
        · rcases List.mem_cons.mp hx with rfl | hx
          · exact Or.inl rfl
          · refine Or.inr ⟨hx, fun hc => ?_⟩
            rcases List.mem_cons.mp hc with rfl | hc
            · exact hxa rfl
            · exact hs hc

theorem jsSetDedupAux_nodup :
    ∀ (l seen : List String), (jsSetDedupAux l seen).Nodup := by
  intro l
  induction l with
  | nil =>
    intro seen
    simp [jsSetDedupAux]
  | cons a l ih =>
    intro seen
    unfold jsSetDedupAux
    split
    · exact ih seen
    · refine List.Nodup.cons ?_ (ih (a :: seen))
      intro hc
      exact ((jsSetDedupAux_mem l (a :: seen) a).mp hc).2 (List.mem_cons_self _ _)

theorem jsSetDedup_mem (l : List String) (x : String) :
    x ∈ jsSetDedup l ↔ x ∈ l := by
  rw [jsSetDedup, jsSetDedupAux_mem]
  simp

theorem jsSetDedup_nodup (l : List String) : (jsSetDedup l).Nodup :=
  jsSetDedupAux_nodup l []

theorem jsSetDedup_eq_nil_iff (l : List String) : jsSetDedup l = [] ↔ l = [] := by
  constructor
  · intro h
    cases l with
    | nil => rfl
    | cons a l =>
      have : a ∈ jsSetDedup (a :: l) := (jsSetDedup_mem _ _).mpr (List.mem_cons_self _ _)
      rw [h] at this
      simp at this
  · rintro rfl
    rfl

/-! ## Shuffle lemmas -/

theorem listSwap_length (l : List String) (i j : Nat) :
    (listSwap l i j).length = l.length := by
  simp [listSwap]

theorem listSwap_perm {l : List String} {i j : Nat}
    (hi : i < l.length) (hj : j < l.length) : (listSwap l i j).Perm l := by
  have hdj : l.getD j "" = l[j] := by
    rw [List.getD_eq_getElem?_getD, List.getElem?_eq_getElem hj]
    rfl
  have hdi : l.getD i "" = l[i] := by
    rw [List.getD_eq_getElem?_getD, List.getElem?_eq_getElem hi]
    rfl
  rw [List.perm_iff_count]
  intro x
  unfold listSwap
  rw [hdj, hdi]
  have hj' : j < (l.set i l[j]).length := by
    rw [List.length_set]
    exact hj
  have h1 := List.count_set l[j] x l i hi
  have h2 := List.count_set l[i] x (l.set i l[j]) j hj'
  have hsj : (l.set i l[j])[j] = l[j] := by
    rw [List.getElem_set]
    split <;> rfl
  rw [hsj] at h2
  have hub : (if (l[i] == x) = true then 1 else 0) ≤ List.count x l := by
    split
    · next hbe =>
      have hxl : x ∈ l := by
        have hix : l[i] = x := by simpa using hbe
        exact hix ▸ l.getElem_mem hi
      exact List.count_pos_iff.mpr hxl
    · exact Nat.zero_le _
  omega

theorem shuffleFrom_length (r : Nat → Nat) :
    ∀ (i : Nat) (a : List String), (shuffleFrom r a i).length = a.length := by
  intro i
  induction i with
  | zero =>
    intro a
    rfl
  | succ i ih =>
    intro a
    rw [shuffleFrom, ih, listSwap_length]

theorem shuffleFrom_perm (r : Nat → Nat) :
    ∀ (i : Nat) (a : List String), i < a.length → (shuffleFrom r a i).Perm a := by
  intro i
  induction i with
  | zero =>
    intro a _
    exact List.Perm.refl a
  | succ i ih =>
    intro a hi
    rw [shuffleFrom]
    have hj : r (i + 1) % (i + 2) < a.length := by
      have := Nat.mod_lt (r (i + 1)) (y := i + 2) (by omega)
      omega
    have hswap := listSwap_perm hi hj
    have hlen : i < (listSwap a (i + 1) (r (i + 1) % (i + 2))).length := by
      rw [listSwap_length]
      omega
    exact (ih _ hlen).trans hswap

theorem shuffleArray_perm (l : List String) (r : Nat → Nat) :
    (shuffleArray l r).Perm l := by
  cases l with
  | nil => exact List.Perm.refl _
  | cons a l =>
    apply shuffleFrom_perm
    simp

theorem selectShortlist_length (ps : List String) (m : Nat) (r : Nat → Nat) :
    (selectShortlist ps m r).length = min m (jsSetDedup ps).length := by
  unfold selectShortlist
  dsimp only
  rw [List.length_take]
  have hlen : (shuffleArray (jsSetDedup ps) r).length = (jsSetDedup ps).length :=
    (shuffleArray_perm _ r).length_eq
  rw [hlen]
  omega

theorem selectShortlist_nodup (ps : List String) (m : Nat) (r : Nat → Nat) :
    (selectShortlist ps m r).Nodup := by
  unfold selectShortlist
  dsimp only
  apply List.Sublist.nodup (List.take_sublist _ _)
  exact ((shuffleArray_perm _ r).symm).nodup (jsSetDedup_nodup ps)

theorem selectShortlist_mem {ps : List String} {m : Nat} {r : Nat → Nat} {x : String}
    (h : x ∈ selectShortlist ps m r) : x ∈ ps := by
  unfold selectShortlist at h
  dsimp only at h
  have h1 : x ∈ shuffleArray (jsSetDedup ps) r := List.mem_of_mem_take h
  have h2 : x ∈ jsSetDedup ps := (shuffleArray_perm _ r).mem_iff.mp h1
  exact (jsSetDedup_mem ps x).mp h2

/-! ## Admission bookkeeping lemmas -/

theorem transactionExists_false_iff (db : DB) (sig : String) :
    transactionExists db sig = false ↔ sigCount db sig = 0 := by
  unfold transactionExists sigCount
  rw [List.countP_eq_zero, ← Bool.not_eq_true, List.any_eq_true]
  push_neg
  exact Iff.rfl

theorem addParticipant_ok_of_new {db : DB} {gid : Nat} {w sig : String} {a : Rat}
    (h : transactionExists db sig = false) :
    addParticipant db gid w sig a
      = Except.ok (updateGameVolume
          { db with
            participants := db.participants ++
              [{ entry_id := db.nextEntryId, game_id := gid, wallet_address := w,
                 transaction_sig := sig, sol_amount := a }],
            nextEntryId := db.nextEntryId + 1 } gid a) := by
  unfold addParticipant
  rw [if_neg (by simp [h])]

theorem addParticipant_error_of_dup {db : DB} {gid : Nat} {w sig : String} {a : Rat}
    (h : transactionExists db sig = true) :
    addParticipant db gid w sig a = Except.error "Transaction already exists" := by
  unfold addParticipant
  rw [if_pos h]

theorem admitCommit_of_dup {db : DB} {gid : Nat} {w sig : String} {a : Rat}
    (h : transactionExists db sig = true) :
    admitCommit db gid w sig a = db := by
  unfold admitCommit
  rw [addParticipant_error_of_dup h]

theorem processTransaction_dup {minSol : Rat} {db : DB} {sig : String}
    {detail : Option Tx} (h : transactionExists db sig = true) :
    processTransaction minSol db sig detail = (db, AdmitOutcome.skippedDuplicate) := by
  unfold processTransaction
  rw [if_pos h]

theorem sigCount_updateGameVolume (db : DB) (gid : Nat) (a : Rat) (sig : String) :
    sigCount (updateGameVolume db gid a) sig = sigCount db sig := rfl

theorem admitCommit_of_new {db : DB} (gid : Nat) (w : String) {sig : String}
    (a : Rat) (h : transactionExists db sig = false) :
    sigCount (admitCommit db gid w sig a) sig = sigCount db sig + 1 ∧
    transactionExists (admitCommit db gid w sig a) sig = true ∧
    (admitCommit db gid w sig a).games = db.games.map (volBump gid a) := by
  unfold admitCommit
  rw [addParticipant_ok_of_new h]
  refine ⟨?_, ?_, rfl⟩
  · rw [sigCount_updateGameVolume]
    unfold sigCount
    dsimp only
    rw [List.countP_append]
    simp
  · unfold transactionExists updateGameVolume
    dsimp only
    rw [List.any_eq_true]
    refine ⟨_, List.mem_append_right _ (List.mem_cons_self _ _), by simp⟩

/-! ## Volume accounting lemmas -/

theorem sum_volumes_map_volBump (gid : Nat) (a : Rat) :
    ∀ l : List Game,
      (((l.map (volBump gid a)).filter (fun g => g.game_id == gid)).map
          (fun g => g.total_volume)).sum
        = ((l.filter (fun g => g.game_id == gid)).map (fun g => g.total_volume)).sum
          + (l.countP (fun g => g.game_id == gid) : Rat) * a := by
  intro l
  induction l with
  | nil => simp
  | cons g l ih =>
    by_cases hid : g.game_id = gid
    · have hb : ((volBump gid a g).game_id == gid) = true := by simp [hid]
      have hb' : (g.game_id == gid) = true := by simp [hid]
      have hv : (volBump gid a g).total_volume = g.total_volume + a := by
        unfold volBump
        rw [if_pos hid]
      rw [List.map_cons, List.filter_cons, List.filter_cons, List.countP_cons,
        if_pos hb, if_pos hb', hb']
      simp only [List.map_cons, List.sum_cons, hv, if_true]
      rw [ih]
      push_cast
      ring
    · have hb : ((volBump gid a g).game_id == gid) = false := by simp [hid]
      have hb' : (g.game_id == gid) = false := by simp [hid]
      rw [List.map_cons, List.filter_cons, List.filter_cons, List.countP_cons,
        hb, hb']
      simp only [if_false, Bool.false_eq_true, reduceIte]
      rw [ih]
      simp

theorem sum_prizes_map_volBump (gid : Nat) (a : Rat) :
    ∀ l : List Game,
      (((l.map (volBump gid a)).filter (fun g => g.game_id == gid)).map
          (fun g => g.prize_pool)).sum
        = ((l.filter (fun g => g.game_id == gid)).map (fun g => g.prize_pool)).sum
          + (l.countP (fun g => g.game_id == gid) : Rat) * (a * prizePercentage) := by
  intro l
  induction l with
  | nil => simp
  | cons g l ih =>
    by_cases hid : g.game_id = gid
    · have hb : ((volBump gid a g).game_id == gid) = true := by simp [hid]
      have hb' : (g.game_id == gid) = true := by simp [hid]
      have hv : (volBump gid a g).prize_pool = g.prize_pool + a * prizePercentage := by
        unfold volBump
        rw [if_pos hid]
      rw [List.map_cons, List.filter_cons, List.filter_cons, List.countP_cons,
        if_pos hb, if_pos hb', hb']
      simp only [List.map_cons, List.sum_cons, hv, if_true]
      rw [ih]
      push_cast
      ring
    · have hb : ((volBump gid a g).game_id == gid) = false := by simp [hid]
      have hb' : (g.game_id == gid) = false := by simp [hid]
      rw [List.map_cons, List.filter_cons, List.filter_cons, List.countP_cons,
        hb, hb']
      simp only [if_false, Bool.false_eq_true, reduceIte]
      rw [ih]
      simp

theorem volumeOf_updateGameVolume (db : DB) (gid : Nat) (a : Rat) :
    volumeOf (updateGameVolume db gid a) gid
      = volumeOf db gid + (db.games.countP (fun g => g.game_id == gid) : Rat) * a := by
  unfold volumeOf updateGameVolume
  exact sum_volumes_map_volBump gid a db.games

theorem prizeOf_updateGameVolume (db : DB) (gid : Nat) (a : Rat) :
    prizeOf (updateGameVolume db gid a) gid
      = prizeOf db gid
        + (db.games.countP (fun g => g.game_id == gid) : Rat) * (a * prizePercentage) := by
  unfold prizeOf updateGameVolume
  exact sum_prizes_map_volBump gid a db.games

/-! ## No-open-round lemmas -/

theorem processTransaction_fst_no_game {minSol : Rat} {db : DB} {sig : String}
    {detail : Option Tx} (h : getCurrentGame db = none) :
    (processTransaction minSol db sig detail).1 = db := by
  unfold processTransaction
  dsimp only
  split
  · rfl
  · split
    · rfl
    · split
      · rfl
      · split
        · rfl
        · split
          · rfl
          · rename_i heq
            rw [h] at heq
            cases heq

theorem processTransaction_no_game_outcome {minSol : Rat} {db : DB} {sig : String}
    {detail : Option Tx} {tx : Tx} {w : String}
    (hng : getCurrentGame db = none) (hdup : transactionExists db sig = false)
    (hd : detail = some tx) (hv : validateTransaction minSol tx = true)
    (hw : resolveWallet tx = some w) :
    processTransaction minSol db sig detail = (db, AdmitOutcome.skippedNoGame) := by
  unfold processTransaction
  rw [hd]
  dsimp only
  rw [if_neg (by simp [hdup]), if_neg (by simp [hv]), hw]
  dsimp only
  rw [hng]

/-! ## Winner-row lemmas -/

theorem winnerRows_pos_iff_any (db : DB) (gid : Nat) :
    0 < (winnerRowsFor db gid).length
      ↔ db.winners.any (fun x => x.game_id == gid) = true := by
  unfold winnerRowsFor
  rw [List.length_pos_iff_exists_mem, List.any_eq_true]
  constructor
  · rintro ⟨x, hx⟩
    rw [List.mem_filter] at hx
    exact ⟨x, hx.1, hx.2⟩
  · rintro ⟨x, hx, hp⟩
    exact ⟨x, List.mem_filter.mpr ⟨hx, hp⟩⟩

theorem completeGame_of_existing_winner {db : DB} {gid : Nat} {w : Option String}
    {sl : List String} {n : Nat}
    (h : db.winners.any (fun x => x.game_id == gid) = true) :
    ((completeGame db gid w sl n).1).winners = db.winners ∧
    (jsTruthy w = true → (completeGame db gid w sl n).2 = false) := by
  cases w with
  | none =>
    constructor
    · unfold completeGame
      simp [jsTruthy]
    · intro hc
      simp [jsTruthy] at hc
  | some s =>
    by_cases hse : s = ""
    · constructor
      · unfold completeGame
        simp [jsTruthy, hse]
      · intro hc
        simp [jsTruthy, hse] at hc
    · unfold completeGame
      dsimp only
      rw [if_pos (by simp [jsTruthy, hse])]
      unfold insertWinner
      dsimp only
      rw [if_pos h]
      exact ⟨rfl, fun _ => rfl⟩

theorem completeGame_winners_structure (db : DB) (gid : Nat) (w : Option String)
    (sl : List String) (n : Nat) :
    ((completeGame db gid w sl n).1).winners = db.winners ∨
    ((completeGame db gid w sl n).1).winners
      = db.winners ++ [{ game_id := gid, wallet_address := w.getD "",
                         total_participants := n, shortlist_size := sl.length }] := by
  cases w with
  | none =>
    left
    unfold completeGame
    simp [jsTruthy]
  | some s =>
    by_cases hse : s = ""
    · left
      unfold completeGame
      simp [jsTruthy, hse]
    · unfold completeGame
      dsimp only
      rw [if_pos (by simp [jsTruthy, hse])]
      unfold insertWinner
      dsimp only
      split
      · next db2 heq =>
        right
        split at heq
        · cases heq
        · cases heq
          rfl
      · left
        rfl

theorem completeGame_winnerRows_of_absent {db : DB} {gid : Nat} {w : Option String}
    {sl : List String} {n : Nat}
    (h : (winnerRowsFor db gid).length = 0) :
    (winnerRowsFor ((completeGame db gid w sl n).1) gid).length ≤ 1 := by
  rcases completeGame_winners_structure db gid w sl n with he | he
  · unfold winnerRowsFor at h ⊢
    rw [he]
    omega
  · unfold winnerRowsFor at h ⊢
    rw [he, List.filter_append, List.length_append, h]
    simp [List.filter_cons]

/-! ## Fisher-Yates structural lemmas -/

theorem listSwap_append {x y : List String} {i j : Nat}
    (hi : i < x.length) (hj : j < x.length) :
    listSwap (x ++ y) i j = listSwap x i j ++ y := by
  unfold listSwap
  have hgj : (x ++ y).getD j "" = x.getD j "" := by
    rw [List.getD_eq_getElem?_getD, List.getD_eq_getElem?_getD,
      List.getElem?_append, if_pos hj]
  have hgi : (x ++ y).getD i "" = x.getD i "" := by
    rw [List.getD_eq_getElem?_getD, List.getD_eq_getElem?_getD,
      List.getElem?_append, if_pos hi]
  rw [hgj, hgi, List.set_append_left _ _ hi,
    List.set_append_left _ _ (by rw [List.length_set]; exact hj)]

theorem shuffleFrom_append (r : Nat → Nat) :
    ∀ (i : Nat) (x y : List String), i < x.length →
      shuffleFrom r (x ++ y) i = shuffleFrom r x i ++ y := by
  intro i
  induction i with
  | zero =>
    intro x y _
    rfl
  | succ i ih =>
    intro x y hi
    rw [shuffleFrom, shuffleFrom]
    have hj : r (i + 1) % (i + 2) < x.length := by
      have := Nat.mod_lt (r (i + 1)) (y := i + 2) (by omega)
      omega
    rw [listSwap_append hi hj]
    exact ih _ y (by rw [listSwap_length]; omega)

theorem shuffleFrom_congr {r r' : Nat → Nat} :
    ∀ (i : Nat) (a : List String), (∀ m, 1 ≤ m → m ≤ i → r m = r' m) →
      shuffleFrom r a i = shuffleFrom r' a i := by
  intro i
  induction i with
  | zero =>
    intro a _
    rfl
  | succ i ih =>
    intro a h
    rw [shuffleFrom, shuffleFrom, h (i + 1) (by omega) (le_refl _)]
    exact ih _ (fun m h1 h2 => h m h1 (by omega))

theorem listSwap_take {a : List String} {i j : Nat} :
    (listSwap a i j).take i = (a.take i).set j (a.getD i "") := by
  unfold listSwap
  rw [List.set_take, List.set_take,
    List.set_eq_of_length_le (l := List.take i a) (n := i)
      (by rw [List.length_take]; omega)]

theorem listSwap_getD_top {a : List String} {i j : Nat}
    (hij : j ≤ i) (hi : i < a.length) :
    (listSwap a i j).getD i "" = a.getD j "" := by
  unfold listSwap
  by_cases hji : j = i
  · subst hji
    rw [List.set_set, List.getD_eq_getElem?_getD,
      List.getElem?_set_eq (by omega)]
    rfl
  · rw [List.getD_eq_getElem?_getD, List.getElem?_set_ne hji,
      List.getElem?_set_eq hi]
    rfl

theorem concat_take_getD {l : List String} {n : Nat} (h : l.length = n + 1) :
    l = l.take n ++ [l.getD n ""] := by
  conv_lhs => rw [← List.take_append_drop n l]
  congr 1
  rw [List.drop_eq_getElem_cons (by omega), List.drop_eq_nil_of_le (by omega),
    List.getD_eq_getElem?_getD, List.getElem?_eq_getElem (by omega)]
  rfl

theorem fy_decompose (r : Nat → Nat) {a : List String} {n : Nat}
    (ha : a.length = n + 2) :
    shuffleFrom r a (n + 1)
      = shuffleFrom r ((a.take (n + 1)).set (r (n + 1) % (n + 2)) (a.getD (n + 1) "")) n
        ++ [a.getD (r (n + 1) % (n + 2)) ""] := by
  have hjle : r (n + 1) % (n + 2) ≤ n + 1 := by
    have := Nat.mod_lt (r (n + 1)) (y := n + 2) (by omega)
    omega
  rw [shuffleFrom]
  have hbl : (listSwap a (n + 1) (r (n + 1) % (n + 2))).length = n + 2 := by
    rw [listSwap_length, ha]
  have h1 : (listSwap a (n + 1) (r (n + 1) % (n + 2))).take (n + 1)
      = (a.take (n + 1)).set (r (n + 1) % (n + 2)) (a.getD (n + 1) "") :=
    listSwap_take
  have h2 : (listSwap a (n + 1) (r (n + 1) % (n + 2))).getD (n + 1) ""
      = a.getD (r (n + 1) % (n + 2)) "" :=
    listSwap_getD_top hjle (by omega)
  conv_lhs => rw [concat_take_getD (n := n + 1) hbl]
  rw [shuffleFrom_append r n _ _ (by rw [List.length_take]; omega), h1, h2]

/-! ## Tape plumbing lemmas -/

theorem tapeFun_joinTape_low {n : Nat} (tl : FYTape (n + 1)) (j : Fin (n + 2))
    {m : Nat} (hm : m < n + 1) :
    tapeFun (joinTape tl j) m = tapeFun tl m := by
  unfold tapeFun joinTape
  rw [dif_pos (show m < n + 2 by omega), dif_pos hm, dif_pos hm]

theorem tapeFun_joinTape_top {n : Nat} (tl : FYTape (n + 1)) (j : Fin (n + 2)) :
    tapeFun (joinTape tl j) (n + 1) = j.1 := by
  unfold tapeFun joinTape
  rw [dif_pos (show n + 1 < n + 2 by omega), dif_neg (show ¬(n + 1 < n + 1) by omega)]
  rfl

theorem tapeFun_restrictTape {n : Nat} (t : FYTape (n + 2)) {m : Nat}
    (hm : m < n + 1) :
    tapeFun (restrictTape t) m = tapeFun t m := by
  unfold tapeFun restrictTape
  rw [dif_pos hm, dif_pos (show m < n + 2 by omega)]

theorem restrictTape_joinTape {n : Nat} (tl : FYTape (n + 1)) (j : Fin (n + 2)) :
    restrictTape (joinTape tl j) = tl := by
  funext i
  rcases i with ⟨iv, hiv⟩
  unfold restrictTape joinTape
  rw [dif_pos hiv]

theorem topTape_joinTape {n : Nat} (tl : FYTape (n + 1)) (j : Fin (n + 2)) :
    topTape (joinTape tl j) = j := by
  unfold topTape joinTape
  rw [dif_neg (show ¬(n + 1 < n + 1) by omega)]
  apply Fin.ext
  simp

theorem joinTape_eta {n : Nat} (t : FYTape (n + 2)) :
    joinTape (restrictTape t) (topTape t) = t := by
  funext i
  rcases i with ⟨iv, hiv⟩
  by_cases h : iv < n + 1
  · unfold joinTape restrictTape
    rw [dif_pos h]
  · obtain rfl : iv = n + 1 := by omega
    unfold joinTape topTape
    rw [dif_neg h]
    apply Fin.ext
    simp

/-! ## Fisher-Yates counting lemmas -/

theorem getD_take {a : List String} {j n : Nat} (hj : j < n) :
    (a.take n).getD j "" = a.getD j "" := by
  rw [List.getD_eq_getElem?_getD, List.getD_eq_getElem?_getD, List.getElem?_take,
    if_pos hj]

theorem fy_body_perm {a l' : List String} {n j : Nat}
    (ha : a.length = n + 2) (hp : l'.Perm a)
    (hj : j ≤ n + 1) (hv : l'.getD (n + 1) "" = a.getD j "") :
    (l'.take (n + 1)).Perm ((a.take (n + 1)).set j (a.getD (n + 1) "")) := by
  have hl' : l'.length = n + 2 := by rw [hp.length_eq, ha]
  have htl : (a.take (n + 1)).length = n + 1 := by
    rw [List.length_take]
    omega
  rw [List.perm_iff_count]
  intro x
  have hca : List.count x l' = List.count x a := (List.perm_iff_count.mp hp) x
  have hsa : List.count x a
      = List.count x (a.take (n + 1))
        + (if a.getD (n + 1) "" == x then 1 else 0) := by
    conv_lhs => rw [concat_take_getD (n := n + 1) ha]
    rw [List.count_append]
    simp [List.count_cons]
  have hsl : List.count x l'
      = List.count x (l'.take (n + 1))
        + (if l'.getD (n + 1) "" == x then 1 else 0) := by
    conv_lhs => rw [concat_take_getD (n := n + 1) hl']
    rw [List.count_append]
    simp [List.count_cons]
  by_cases hjn : j = n + 1
  · subst hjn
    rw [List.set_eq_of_length_le (by omega)]
    rw [hv] at hsl
    omega
  · have hjlt : j < n + 1 := by omega
    have hjtake : j < (a.take (n + 1)).length := by omega
    have hcs := List.count_set (a.getD (n + 1) "") x (a.take (n + 1)) j hjtake
    have hgj : (a.take (n + 1))[j] = a.getD j "" := by
      have hgt := getD_take (a := a) hjlt
      rw [← hgt, List.getD_eq_getElem?_getD, List.getElem?_eq_getElem hjtake]
      rfl
    rw [hgj] at hcs
    rw [hv] at hsl
    have hub : (if a.getD j "" == x then 1 else 0)
        ≤ List.count x (a.take (n + 1)) := by
      split
      · next hbe =>
        have hxm : x ∈ a.take (n + 1) := by
          have hxe : (a.take (n + 1))[j] = x := by
            rw [hgj]
            simpa using hbe
          exact hxe ▸ (a.take (n + 1)).getElem_mem hjtake
        exact List.count_pos_iff.mpr hxm
      · exact Nat.zero_le _
    omega

theorem getD_eq_get {l : List String} {i : Nat} (h : i < l.length) :
    l.getD i "" = l.get ⟨i, h⟩ := by
  rw [List.getD_eq_getElem?_getD, List.getElem?_eq_getElem h]
  rfl

/-- Under the ideal uniform model, the Fisher-Yates loop of `shuffleArray`
is a bijection between random tapes and permutations of a duplicate-free
input: every permutation is produced by exactly one tape. -/
theorem fy_existsUnique :
    ∀ (n : Nat) (a : List String), a.length = n → a.Nodup →
      ∀ l' : List String, l'.Perm a →
        ∃! t : FYTape n, shuffleFrom (tapeFun t) a (n - 1) = l' := by
  intro n
  induction n using Nat.strong_induction_on with
  | _ n ih =>
    match n, ih with
    | 0, _ =>
      intro a ha hnd l' hp
      have ha0 : a = [] := List.length_eq_zero.mp ha
      subst ha0
      have hl0 : l' = [] := by simpa using hp
      subst hl0
      refine ⟨fun i => Fin.elim0 i, rfl, ?_⟩
      intro t _
      funext i
      exact Fin.elim0 i
    | 1, _ =>
      intro a ha hnd l' hp
      obtain ⟨x, rfl⟩ := List.length_eq_one.mp ha
      have hl1 : l' = [x] := List.perm_singleton.mp hp
      subst hl1
      refine ⟨fun i => ⟨0, by omega⟩, rfl, ?_⟩
      intro t _
      funext i
      rcases i with ⟨iv, hiv⟩
      obtain rfl : iv = 0 := by omega
      apply Fin.ext
      have hlt := (t ⟨0, hiv⟩).isLt
      omega
    | (m + 2), ih =>
      intro a ha hnd l' hp
      have hl' : l'.length = m + 2 := by rw [hp.length_eq, ha]
      have hvmem : l'.getD (m + 1) "" ∈ a := by
        have h1 : l'.getD (m + 1) "" ∈ l' := by
          rw [getD_eq_get (show m + 1 < l'.length by omega)]
          exact l'.get_mem _ _
        exact hp.subset h1
      obtain ⟨jv, hjv_lt, hjv⟩ := List.mem_iff_getElem.mp hvmem
      have hjv_le : jv ≤ m + 1 := by
        rw [ha] at hjv_lt
        omega
      have hjvD : a.getD jv "" = l'.getD (m + 1) "" := by
        rw [getD_eq_get hjv_lt]
        exact hjv
      have hbody_len : ((a.take (m + 1)).set jv (a.getD (m + 1) "")).length = m + 1 := by
        rw [List.length_set, List.length_take]
        omega
      have hbperm : (l'.take (m + 1)).Perm ((a.take (m + 1)).set jv (a.getD (m + 1) "")) :=
        fy_body_perm ha hp hjv_le hjvD.symm
      have hbnodup : ((a.take (m + 1)).set jv (a.getD (m + 1) "")).Nodup := by
        have h1 : l'.Nodup := (hp.symm).nodup hnd
        have h2 : (l'.take (m + 1)).Nodup := (List.take_sublist _ _).nodup h1
        exact hbperm.nodup h2
      have hIH := ih (m + 1) (by omega) ((a.take (m + 1)).set jv (a.getD (m + 1) ""))
        hbody_len hbnodup (l'.take (m + 1)) hbperm
      simp only [Nat.add_sub_cancel] at hIH
      obtain ⟨tl₀, htl₀, htl₀u⟩ := hIH
      have hkey : ∀ t : FYTape (m + 2),
          shuffleFrom (tapeFun t) a (m + 2 - 1)
            = shuffleFrom (tapeFun (restrictTape t))
                ((a.take (m + 1)).set (topTape t).1 (a.getD (m + 1) "")) m
              ++ [a.getD (topTape t).1 ""] := by
        intro t
        have hmod : tapeFun t (m + 1) % (m + 2) = (topTape t).1 := by
          unfold tapeFun topTape
          rw [dif_pos (show m + 1 < m + 2 by omega)]
          exact Nat.mod_eq_of_lt (t ⟨m + 1, by omega⟩).isLt
        have hd := fy_decompose (tapeFun t) (n := m) ha
        rw [hmod] at hd
        rw [show m + 2 - 1 = m + 1 from rfl, hd]
        congr 1
        exact shuffleFrom_congr m _
          (fun mm h1 h2 => (tapeFun_restrictTape t (by omega)).symm)
      refine ⟨joinTape tl₀ ⟨jv, by omega⟩, ?_, ?_⟩
      · show shuffleFrom (tapeFun (joinTape tl₀ ⟨jv, by omega⟩)) a (m + 2 - 1) = l'
        rw [hkey, topTape_joinTape, restrictTape_joinTape]
        dsimp only
        rw [htl₀, hjvD]
        exact (concat_take_getD (n := m + 1) hl').symm
      · intro t ht
        rw [hkey t] at ht
        have hlsub : (shuffleFrom (tapeFun (restrictTape t))
            ((a.take (m + 1)).set (topTape t).1 (a.getD (m + 1) "")) m).length
              = m + 1 := by
          rw [shuffleFrom_length, List.length_set, List.length_take]
          omega
        rw [concat_take_getD (n := m + 1) hl'] at ht
        obtain ⟨hteq, hveq⟩ := List.append_inj ht
          (by rw [hlsub, List.length_take]; omega)
        have hveq' : a.getD (topTape t).1 "" = l'.getD (m + 1) "" := by
          simpa using hveq
        have htop_lt : (topTape t).1 < a.length := by
          have hfin := (topTape t).isLt
          omega
        have hidx : (topTape t).1 = jv := by
          have hget : a.get ⟨(topTape t).1, htop_lt⟩ = a.get ⟨jv, hjv_lt⟩ := by
            rw [← getD_eq_get htop_lt, ← getD_eq_get hjv_lt, hveq', hjvD]
          have hinj := List.nodup_iff_injective_get.mp hnd hget
          exact congrArg Fin.val hinj
        rw [hidx] at hteq
        have hrt : restrictTape t = tl₀ := htl₀u (restrictTape t) hteq
        calc t = joinTape (restrictTape t) (topTape t) := (joinTape_eta t).symm
          _ = joinTape tl₀ ⟨jv, by omega⟩ := by
              have htop : topTape t = (⟨jv, by omega⟩ : Fin (m + 2)) := Fin.ext hidx
              exact congrArg₂ joinTape hrt htop

theorem card_FYTape (n : Nat) : Fintype.card (FYTape n) = n.factorial := by
  rw [Fintype.card_pi]
  simp only [Fintype.card_fin]
  rw [Fin.prod_univ_eq_prod_range (fun i => i + 1) n]
  exact Finset.prod_range_add_one_eq_factorial n

theorem selectRandomWinner_unique_index {sl : List String} (hnd : sl.Nodup)
    {w : String} (hw : w ∈ sl) :
    ∃! idx : Fin sl.length, selectRandomWinner sl idx.1 = some w := by
  obtain ⟨i, hi, hig⟩ := List.mem_iff_getElem.mp hw
  refine ⟨⟨i, hi⟩, ?_, ?_⟩
  · show selectRandomWinner sl i = some w
    unfold selectRandomWinner
    rw [if_neg (by omega), Nat.mod_eq_of_lt hi, getD_eq_get hi]
    exact congrArg some hig
  · intro y hy
    unfold selectRandomWinner at hy
    rw [if_neg (by have := y.isLt; omega), Nat.mod_eq_of_lt y.isLt,
      getD_eq_get y.isLt] at hy
    have hy' : sl.get y = sl.get ⟨i, hi⟩ := by
      injection hy with hy
      rw [hy]
      exact hig.symm
    exact List.nodup_iff_injective_get.mp hnd hy'

/-! ## Poll-tick marker lemmas -/

theorem errorBump_marker (st : ListenerState) :
    (errorBump st).lastProcessedSlot = st.lastProcessedSlot := by
  unfold errorBump
  split <;> rfl

theorem marker_le_tick (minSol : Rat) (db : DB) (st : ListenerState)
    (lv : LedgerView) :
    st.lastProcessedSlot
      ≤ (checkForNewTransactions minSol db st lv).2.1.lastProcessedSlot := by
  unfold checkForNewTransactions
  split
  · rw [errorBump_marker]
  · rename_i cs hcs
    split
    · exact le_refl _
    · rename_i hle
      split
      · rw [errorBump_marker]
      · show st.lastProcessedSlot ≤ cs
        omega

theorem tick_advanced {minSol : Rat} {db : DB} {st : ListenerState}
    {lv : LedgerView}
    (hne : (checkForNewTransactions minSol db st lv).2.1.lastProcessedSlot
      ≠ st.lastProcessedSlot) :
    ∃ cs sigs, lv.currentSlot = some cs ∧ lv.signatures = some sigs ∧
      st.lastProcessedSlot < cs ∧
      (checkForNewTransactions minSol db st lv).2.1.lastProcessedSlot = cs ∧
      (checkForNewTransactions minSol db st lv).2.2
        = (sigs.filter (fun s => decide (st.lastProcessedSlot < s.slot))).map
            (fun s => s.signature) := by
  unfold checkForNewTransactions at hne ⊢
  split at hne
  · rw [errorBump_marker] at hne
    exact absurd rfl hne
  · next cs hcs =>
    split at hne
    · exact absurd rfl hne
    · next hle =>
      split at hne
      · rw [errorBump_marker] at hne
        exact absurd rfl hne
      · next sigs hsigs =>
        refine ⟨cs, sigs, hcs, hsigs, by omega, ?_, ?_⟩
        · rw [if_neg hle]
        · rw [if_neg hle]

theorem marker_le_run (minSol : Rat) :
    ∀ (lvs : List LedgerView) (db : DB) (st : ListenerState),
      st.lastProcessedSlot ≤ (runPollTicks minSol db st lvs).2.lastProcessedSlot := by
  intro lvs
  induction lvs with
  | nil =>
    intro db st
    exact le_refl _
  | cons lv lvs ih =>
    intro db st
    exact le_trans (marker_le_tick minSol db st lv) (ih _ _)

/-! ## Claim theorems -/

/-- C1, counterexample: the claim "at most one Game has status Open at any
instant, for every sequence of bootstrap round creation, scheduler ticks
and participant admissions" is false on the code: bootstrapping at minute
5 and letting the cron tick fire at minute 20 leaves two simultaneously
running games, because the tick only closes games with `end_time < now`
and then creates a new game unconditionally. -/
theorem c1_two_open_games_counterexample :
    runningCount (applyTrace emptyDB c1BadTrace) = 2 ∧
    ¬ AtMostOneOpen (applyTrace emptyDB c1BadTrace) := by
  constructor
  · rfl
  · show ¬ runningCount (applyTrace emptyDB c1BadTrace) ≤ 1
    decide

/-- C1, amended: at most one game is ever Open provided every scheduler
tick fires strictly after the end time of each currently running game;
under that timing assumption the single-open-game invariant is preserved
by every sequence of bootstrap, tick, admission, and raced-commit
operations. -/
theorem c1_at_most_one_open_amended (db : DB) (steps : List Step)
    (h0 : AtMostOneOpen db) (hs : SafeTrace db steps) :
    AtMostOneOpen (applyTrace db steps) := by
  induction steps generalizing db with
  | nil => exact h0
  | cons s rest ih =>
    have hs' : TickSafe db s ∧ SafeTrace (applyStep db s) rest := hs
    exact ih (applyStep db s) (atMostOne_applyStep h0 hs'.1) hs'.2

theorem c1_at_most_one_open_amended_witness :
    AtMostOneOpen emptyDB ∧ SafeTrace emptyDB c1GoodTrace ∧
      AtMostOneOpen (applyTrace emptyDB c1GoodTrace) := by
  have h0 : AtMostOneOpen emptyDB := by
    show runningCount emptyDB ≤ 1
    decide
  have hs : SafeTrace emptyDB c1GoodTrace := by
    refine ⟨trivial, ?_, trivial⟩
    show ∀ g ∈ runningGames (applyStep emptyDB (Step.bootstrap 0 zeroR 0)),
      g.end_time < 1300000
    decide
  exact ⟨h0, hs, c1_at_most_one_open_amended emptyDB c1GoodTrace h0 hs⟩

/-- C2, counterexample: running the close-and-draw procedure a second time
on the already-Closed game 1 is not a reported no-op: the repeat call ends
with the error flag (`false`, the rethrown duplicate-key failure of the
winner insert), and it re-runs the games UPDATE, overwriting the recorded
winner ("b") with the retry's freshly drawn winner ("a") while the winners
table still holds the original single record. -/
theorem c2_close_round_not_noop_counterexample :
    (executeDrawForGame dbTwoEntrants 1 zeroR 0).2.2 = true ∧
    winnerOf (executeDrawForGame dbTwoEntrants 1 zeroR 0).1 1 = some (some "b") ∧
    (executeDrawForGame (executeDrawForGame dbTwoEntrants 1 zeroR 0).1 1 oneR 0).2.2
      = false ∧
    winnerOf (executeDrawForGame
        (executeDrawForGame dbTwoEntrants 1 zeroR 0).1 1 oneR 0).1 1
      = some (some "a") ∧
    (executeDrawForGame (executeDrawForGame dbTwoEntrants 1 zeroR 0).1 1 oneR 0).1.winners
      = [{ game_id := 1, wallet_address := "b", total_participants := 2,
           shortlist_size := 2 }] := by
  exact ⟨rfl, rfl, rfl, rfl, rfl⟩

/-- C2, amended: across repeated `completeGame` calls the winners-table
unique key keeps at most one winner record per game identifier (a call
against a game with no record writes at most one; a call against a game
that already has one leaves the winners table unchanged), but the repeat
call is not a no-op: when it carries a winner it reports the duplicate-key
error, and it always re-executes the games update. -/
theorem c2_winner_record_unique_amended (db : DB) (gid : Nat)
    (w : Option String) (sl : List String) (n : Nat) :
    ((winnerRowsFor db gid).length = 0 →
      (winnerRowsFor ((completeGame db gid w sl n).1) gid).length ≤ 1) ∧
    (0 < (winnerRowsFor db gid).length →
      ((completeGame db gid w sl n).1).winners = db.winners ∧
      (jsTruthy w = true → (completeGame db gid w sl n).2 = false)) := by
  constructor
  · intro h
    exact completeGame_winnerRows_of_absent h
  · intro h
    exact completeGame_of_existing_winner ((winnerRows_pos_iff_any db gid).mp h)

theorem c2_winner_record_unique_amended_witness :
    (winnerRowsFor dbTwoEntrants 1).length = 0 ∧
    (winnerRowsFor ((completeGame dbTwoEntrants 1 (some "b") ["b", "a"] 2).1) 1).length
      ≤ 1 :=
  ⟨by decide,
   (c2_winner_record_unique_amended dbTwoEntrants 1 (some "b") ["b", "a"] 2).1
     (by decide)⟩

/-- C3, counterexample: the clause "volume and prize pool never change once
the game is Closed (no admission step may alter a Closed game's volume or
prize pool)" is false on the code: the admission write
(`participantService.addParticipant`) carries the game id resolved before
an interleaved tick closed the round, and it increments the Closed game's
volume and prize pool, since `updateGameVolume` has no status guard. -/
theorem c3_closed_game_volume_mutated_counterexample :
    statusOf (schedulerTick dbOneRunning 11 zeroR2 zeroK) 1
      = some GameStatus.completed ∧
    volumeCell (schedulerTick dbOneRunning 11 zeroR2 zeroK) 1 = some 0 ∧
    statusOf (admitCommit (schedulerTick dbOneRunning 11 zeroR2 zeroK) 1 "w" "sig" 1) 1
      = some GameStatus.completed ∧
    volumeCell (admitCommit (schedulerTick dbOneRunning 11 zeroR2 zeroK) 1 "w" "sig" 1) 1
      = some 1 ∧
    prizeCell (admitCommit (schedulerTick dbOneRunning 11 zeroR2 zeroK) 1 "w" "sig" 1) 1
      = some (1 / 1000) := by
  refine ⟨rfl, rfl, rfl, ?_, ?_⟩
  · have h : volumeCell
        (admitCommit (schedulerTick dbOneRunning 11 zeroR2 zeroK) 1 "w" "sig" 1) 1
        = some ((0 : Rat) + 1) := rfl
    rw [h]
    norm_num
  · have h : prizeCell
        (admitCommit (schedulerTick dbOneRunning 11 zeroR2 zeroK) 1 "w" "sig" 1) 1
        = some ((0 : Rat) + 1 * prizePercentage) := rfl
    rw [h]
    norm_num [prizePercentage]

/-- C3, amended: along every sequence of operations whose admissions carry
non-negative amounts, each pre-existing game row evolves in place: its
identifier, start time and end time never change, `completed` status is
never reverted, and volume and prize pool are monotonically non-decreasing
(frozen-after-close is not guaranteed: an admission committing after an
interleaved closure still increments the closed game's totals). -/
theorem c3_game_evolution_amended (db : DB) (steps : List Step)
    (h : ∀ s ∈ steps, AmtSafe s) :
    EvolveStep db (applyTrace db steps) := by
  induction steps generalizing db with
  | nil => exact evolveStep_refl db
  | cons s rest ih =>
    have h1 : AmtSafe s := h s (List.mem_cons_self s rest)
    have h2 : ∀ s' ∈ rest, AmtSafe s' := fun s' hs' => h s' (List.mem_cons_of_mem _ hs')
    exact evolveStep_trans (evolveStep_applyStep h1) (ih (applyStep db s) h2)

theorem c3_game_evolution_amended_witness :
    (∀ s ∈ [Step.tick 11 zeroR2 zeroK], AmtSafe s) ∧
    EvolveStep dbOneRunning (applyTrace dbOneRunning [Step.tick 11 zeroR2 zeroK]) := by
  have h : ∀ s ∈ [Step.tick 11 zeroR2 zeroK], AmtSafe s := by
    intro s hs
    rw [List.mem_singleton] at hs
    subst hs
    trivial
  exact ⟨h, c3_game_evolution_amended dbOneRunning [Step.tick 11 zeroR2 zeroK] h⟩

/-- C4: submitting the same ledger signature twice — including the race
where both submissions pass the dedup check before either insert — leaves
exactly one participant row carrying that signature across all games, the
target game's volume and prize pool are incremented exactly once (the
second commit is an identity on the store, its insert being rejected by
the unique constraint before the volume update runs), and the duplicate is
handled as a success-no-op: `processTransaction` reports
`skippedDuplicate` and leaves the store untouched rather than failing the
batch. -/
theorem c4_duplicate_signature_single_entry (db : DB) (sig : String)
    (gidA gidB : Nat) (wA wB : String) (aA aB : Rat) (minSol : Rat)
    (detail : Option Tx)
    (hnew : transactionExists db sig = false)
    (hone : db.games.countP (fun g => g.game_id == gidA) = 1) :
    sigCount (admitCommit db gidA wA sig aA) sig = 1 ∧
    volumeOf (admitCommit db gidA wA sig aA) gidA = volumeOf db gidA + aA ∧
    prizeOf (admitCommit db gidA wA sig aA) gidA
      = prizeOf db gidA + aA * prizePercentage ∧
    admitCommit (admitCommit db gidA wA sig aA) gidB wB sig aB
      = admitCommit db gidA wA sig aA ∧
    processTransaction minSol (admitCommit db gidA wA sig aA) sig detail
      = (admitCommit db gidA wA sig aA, AdmitOutcome.skippedDuplicate) := by
  obtain ⟨hcount, hexists, hgames⟩ := admitCommit_of_new gidA wA aA hnew
  refine ⟨?_, ?_, ?_, admitCommit_of_dup hexists, processTransaction_dup hexists⟩
  · rw [hcount, (transactionExists_false_iff db sig).mp hnew]
  · have hv : volumeOf (admitCommit db gidA wA sig aA) gidA
        = (((db.games.map (volBump gidA aA)).filter
            (fun g => g.game_id == gidA)).map (fun g => g.total_volume)).sum := by
      unfold volumeOf
      rw [hgames]
    rw [hv, sum_volumes_map_volBump, hone]
    unfold volumeOf
    push_cast
    ring
  · have hv : prizeOf (admitCommit db gidA wA sig aA) gidA
        = (((db.games.map (volBump gidA aA)).filter
            (fun g => g.game_id == gidA)).map (fun g => g.prize_pool)).sum := by
      unfold prizeOf
      rw [hgames]
    rw [hv, sum_prizes_map_volBump, hone]
    unfold prizeOf
    push_cast
    ring

theorem c4_duplicate_signature_single_entry_witness :
    transactionExists dbOneRunning "sig" = false ∧
    dbOneRunning.games.countP (fun g => g.game_id == 1) = 1 ∧
    sigCount (admitCommit dbOneRunning 1 "w" "sig" 1) "sig" = 1 ∧
    admitCommit (admitCommit dbOneRunning 1 "w" "sig" 1) 1 "w2" "sig" 2
      = admitCommit dbOneRunning 1 "w" "sig" 1 := by
  have h1 : transactionExists dbOneRunning "sig" = false := by decide
  have h2 : dbOneRunning.games.countP (fun g => g.game_id == 1) = 1 := by decide
  have hc := c4_duplicate_signature_single_entry dbOneRunning "sig" 1 1 "w" "w2"
    1 2 0 none h1 h2
  exact ⟨h1, h2, hc.1, hc.2.2.2.1⟩

/-- C5: the draw over a game's entrant list with deduplicated size `k`
yields: for `k = 0` no winner, an empty shortlist, no winner record, and
the game row still transitions to Closed; for `0 < k ≤ 25` a shortlist of
exactly `k` pairwise-distinct entrant identities all drawn from the
entrant list; for `k > 25` exactly 25 such identities. -/
theorem c5_draw_shortlist_spec (db : DB) (gid : Nat) (r : Nat → Nat) (k : Nat) :
    ((jsSetDedup (getParticipantAddressesByGameId db gid)).length = 0 →
      (executeDrawForGame db gid r k).2.1.winner = none ∧
      (executeDrawForGame db gid r k).2.1.shortlist = [] ∧
      ((executeDrawForGame db gid r k).1).winners = db.winners ∧
      ∀ g ∈ ((executeDrawForGame db gid r k).1).games,
        g.game_id = gid → g.status = GameStatus.completed) ∧
    (0 < (jsSetDedup (getParticipantAddressesByGameId db gid)).length →
      (jsSetDedup (getParticipantAddressesByGameId db gid)).length ≤ 25 →
      (executeDrawForGame db gid r k).2.1.shortlist.length
          = (jsSetDedup (getParticipantAddressesByGameId db gid)).length ∧
      (executeDrawForGame db gid r k).2.1.shortlist.Nodup ∧
      ∀ x ∈ (executeDrawForGame db gid r k).2.1.shortlist,
        x ∈ getParticipantAddressesByGameId db gid) ∧
    (25 < (jsSetDedup (getParticipantAddressesByGameId db gid)).length →
      (executeDrawForGame db gid r k).2.1.shortlist.length = 25 ∧
      (executeDrawForGame db gid r k).2.1.shortlist.Nodup ∧
      ∀ x ∈ (executeDrawForGame db gid r k).2.1.shortlist,
        x ∈ getParticipantAddressesByGameId db gid) := by
  by_cases hps : (getParticipantAddressesByGameId db gid).length = 0
  · have hnil : getParticipantAddressesByGameId db gid = [] :=
      List.length_eq_zero.mp hps
    have hknil : jsSetDedup (getParticipantAddressesByGameId db gid) = [] := by
      rw [hnil]
      rfl
    refine ⟨fun _ => ?_, fun h0 _ => ?_, fun h25 => ?_⟩
    · unfold executeDrawForGame
      dsimp only
      rw [if_pos hps]
      refine ⟨rfl, rfl, completeGame_winners_of_none db gid [] 0, ?_⟩
      intro g hg hid
      rw [completeGame_games] at hg
      obtain ⟨g₀, _, rfl⟩ := List.mem_map.mp hg
      exact setCompleted_of_id (by rw [setCompleted_game_id] at hid; exact hid)
    · rw [hknil] at h0
      simp at h0
    · rw [hknil] at h25
      simp at h25
  · have hsl : (executeDrawForGame db gid r k).2.1.shortlist
        = selectShortlist (getParticipantAddressesByGameId db gid) 25 r := by
      unfold executeDrawForGame
      dsimp only
      rw [if_neg hps]
    have hlen := selectShortlist_length (getParticipantAddressesByGameId db gid) 25 r
    have hnd := selectShortlist_nodup (getParticipantAddressesByGameId db gid) 25 r
    refine ⟨fun h0 => ?_, fun h0 hle => ?_, fun h25 => ?_⟩
    · have : getParticipantAddressesByGameId db gid = [] :=
        (jsSetDedup_eq_nil_iff _).mp (List.length_eq_zero.mp h0)
      exact absurd (by rw [this]; rfl) hps
    · refine ⟨?_, by rw [hsl]; exact hnd, ?_⟩
      · rw [hsl, hlen]
        omega
      · intro x hx
        rw [hsl] at hx
        exact selectShortlist_mem hx
    · refine ⟨?_, by rw [hsl]; exact hnd, ?_⟩
      · rw [hsl, hlen]
        omega
      · intro x hx
        rw [hsl] at hx
        exact selectShortlist_mem hx

theorem c5_draw_shortlist_spec_witness :
    ((jsSetDedup (getParticipantAddressesByGameId dbOneRunning 1)).length = 0 ∧
      (executeDrawForGame dbOneRunning 1 zeroR 0).2.1.winner = none ∧
      (executeDrawForGame dbOneRunning 1 zeroR 0).2.1.shortlist = [] ∧
      ((executeDrawForGame dbOneRunning 1 zeroR 0).1).winners = dbOneRunning.winners) ∧
    ((jsSetDedup (getParticipantAddressesByGameId dbTwoEntrants 1)).length = 2 ∧
      (executeDrawForGame dbTwoEntrants 1 zeroR 0).2.1.shortlist.length = 2 ∧
      (executeDrawForGame dbTwoEntrants 1 zeroR 0).2.1.shortlist.Nodup) := by
  have hz := (c5_draw_shortlist_spec dbOneRunning 1 zeroR 0).1 (by decide)
  have ht := (c5_draw_shortlist_spec dbTwoEntrants 1 zeroR 0).2.1 (by decide) (by decide)
  exact ⟨⟨by decide, hz.1, hz.2.1, hz.2.2.1⟩,
    ⟨by decide, by rw [ht.1]; decide, ht.2.1⟩⟩

/-- C6: under the ideal uniform-randomness model, the Fisher-Yates loop of
`shuffleArray` maps the `n!` equally likely random tapes bijectively onto
the permutations of a duplicate-free input (each permutation arises from
exactly one tape, so each has probability `1/n!`), and `selectRandomWinner`
applied to the duplicate-free shortlist hits each shortlisted entrant at
exactly one of the `|shortlist|` equally likely indices, so each wins with
probability `1/|shortlist|` regardless of how many ledger entries they
contributed. -/
theorem c6_uniform_shuffle_and_winner (l ps : List String) (r : Nat → Nat)
    (hnd : l.Nodup) :
    (∀ l', l'.Perm l → ∃! t : FYTape l.length, shuffleArray l (tapeFun t) = l') ∧
    Fintype.card (FYTape l.length) = l.length.factorial ∧
    ∀ w ∈ selectShortlist ps 25 r,
      ∃! idx : Fin (selectShortlist ps 25 r).length,
        selectRandomWinner (selectShortlist ps 25 r) idx.1 = some w := by
  refine ⟨?_, card_FYTape l.length, ?_⟩
  · intro l' hp
    exact fy_existsUnique l.length l rfl hnd l' hp
  · intro w hw
    exact selectRandomWinner_unique_index (selectShortlist_nodup ps 25 r) hw

theorem c6_uniform_shuffle_and_winner_witness :
    List.Nodup ["a", "b"] ∧
    (∀ l', l'.Perm ["a", "b"] →
      ∃! t : FYTape (["a", "b"] : List String).length,
        shuffleArray ["a", "b"] (tapeFun t) = l') ∧
    Fintype.card (FYTape (["a", "b"] : List String).length)
      = (["a", "b"] : List String).length.factorial := by
  have hnd : List.Nodup ["a", "b"] := by decide
  have hc := c6_uniform_shuffle_and_winner ["a", "b"] ["a", "b", "a"] zeroR hnd
  exact ⟨hnd, hc.1, hc.2.1⟩

/-- C7: the draw engine's randomness is `Math.random` — a seedable
pseudo-random generator, not a cryptographically strong source — and the
shuffle outcome is a deterministic function of the finitely many generator
outputs it consumes, so an observer who knows the generator state can
predict and replay every draw.  This contradicts the claim and the
repository's own documentation (docs/services.md advertises
"cryptographically secure random number generation"). -/
theorem c7_draw_uses_seedable_prng :
    drawRandomnessSource = RandomnessSource.mathRandom ∧
    drawRandomnessSource ≠ RandomnessSource.cryptoStrong ∧
    ∀ (l : List String) (r r' : Nat → Nat),
      (∀ m, 1 ≤ m → m ≤ l.length - 1 → r m = r' m) →
      shuffleArray l r = shuffleArray l r' := by
  refine ⟨rfl, by decide, ?_⟩
  intro l r r' h
  exact shuffleFrom_congr (l.length - 1) l h

theorem c7_draw_uses_seedable_prng_witness :
    (∀ m, 1 ≤ m → m ≤ (["a", "b"] : List String).length - 1 → zeroR m = altR m) ∧
    shuffleArray ["a", "b"] zeroR = shuffleArray ["a", "b"] altR := by
  have h : ∀ m, 1 ≤ m → m ≤ (["a", "b"] : List String).length - 1 →
      zeroR m = altR m := by
    intro m h1 h2
    unfold zeroR altR
    rw [if_pos (by simpa using h2)]
  exact ⟨h, (c7_draw_uses_seedable_prng.2.2) ["a", "b"] zeroR altR h⟩

/-- C8: `validateTransaction` admits a candidate (with balance data
present) if and only if the ledger reported no error and the fee payer's
lamport delta is at least `minSolAmount * 1e9`; with the default minimum
0.04 SOL, a spend of 0.039 SOL (39000000 lamports) is rejected, one of
exactly 0.04 SOL (40000000 lamports) is admitted, and one of 0.0400001 SOL
(40000100 lamports) is admitted. -/
theorem c8_validation_threshold :
    (∀ (minSol : Rat) (tx : Tx) (m : TxMeta), tx.meta = some m →
      m.preBalances ≠ [] → m.postBalances ≠ [] →
      (validateTransaction minSol tx = true ↔
        (m.err = none ∧ minSol * 1000000000
          ≤ ((m.preBalances.getD 0 0 - m.postBalances.getD 0 0 : Int) : Rat)))) ∧
    validateTransaction minSolAmountDefault (scenarioTx 39000000) = false ∧
    validateTransaction minSolAmountDefault (scenarioTx 40000000) = true ∧
    validateTransaction minSolAmountDefault (scenarioTx 40000100) = true := by
  refine ⟨?_, ?_, ?_, ?_⟩
  · intro minSol tx m hm hpre hpost
    unfold validateTransaction
    rw [hm]
    dsimp only
    by_cases herr : m.err = none
    · rw [if_neg (by simp [herr]),
        if_neg (by simp [List.length_eq_zero, hpre, hpost])]
      simp [herr, ge_iff_le]
    · rw [if_pos (by simp [herr])]
      simp [herr]
  · unfold validateTransaction scenarioTx minSolAmountDefault
    dsimp only
    rw [if_neg (by simp), if_neg (by simp)]
    rw [decide_eq_false_iff_not]
    push_cast
    norm_num
  · unfold validateTransaction scenarioTx minSolAmountDefault
    dsimp only
    rw [if_neg (by simp), if_neg (by simp)]
    rw [decide_eq_true_eq]
    push_cast
    norm_num
  · unfold validateTransaction scenarioTx minSolAmountDefault
    dsimp only
    rw [if_neg (by simp), if_neg (by simp)]
    rw [decide_eq_true_eq]
    push_cast
    norm_num

theorem c8_validation_threshold_witness :
    (scenarioTx 40000000).meta
        = some { err := none, preBalances := [40000000], postBalances := [0] } ∧
    (validateTransaction minSolAmountDefault (scenarioTx 40000000) = true ↔
      ((none : Option String) = none ∧ minSolAmountDefault * 1000000000
        ≤ ((([40000000] : List Int).getD 0 0 - ([0] : List Int).getD 0 0 : Int) : Rat))) :=
  ⟨rfl,
   c8_validation_threshold.1 minSolAmountDefault (scenarioTx 40000000)
     { err := none, preBalances := [40000000], postBalances := [0] }
     rfl (by decide) (by decide)⟩

/-- C9: on every poll tick the last-processed slot marker never regresses;
when it does advance it is set to the freshly read current slot, strictly
above the old marker, and only after the tick has attempted exactly the
fetched signatures newer than the old marker; over any sequence of ticks
(including failing ones) the marker is monotone. -/
theorem c9_marker_monotone (minSol : Rat) (db : DB) (st : ListenerState)
    (lv : LedgerView) :
    st.lastProcessedSlot
        ≤ (checkForNewTransactions minSol db st lv).2.1.lastProcessedSlot ∧
    ((checkForNewTransactions minSol db st lv).2.1.lastProcessedSlot
        ≠ st.lastProcessedSlot →
      ∃ cs sigs, lv.currentSlot = some cs ∧ lv.signatures = some sigs ∧
        st.lastProcessedSlot < cs ∧
        (checkForNewTransactions minSol db st lv).2.1.lastProcessedSlot = cs ∧
        (checkForNewTransactions minSol db st lv).2.2
          = (sigs.filter (fun s => decide (st.lastProcessedSlot < s.slot))).map
              (fun s => s.signature)) ∧
    ∀ lvs : List LedgerView,
      st.lastProcessedSlot ≤ (runPollTicks minSol db st lvs).2.lastProcessedSlot :=
  ⟨marker_le_tick minSol db st lv,
   fun hne => tick_advanced hne,
   fun lvs => marker_le_run minSol lvs db st⟩

theorem c9_marker_monotone_witness :
    ({ lastProcessedSlot := 5, retryCount := 0 } : ListenerState).lastProcessedSlot
      ≤ (checkForNewTransactions 0 emptyDB
          { lastProcessedSlot := 5, retryCount := 0 }
          { currentSlot := some 7, signatures := some [],
            details := fun _ => none }).2.1.lastProcessedSlot :=
  (c9_marker_monotone 0 emptyDB { lastProcessedSlot := 5, retryCount := 0 }
    { currentSlot := some 7, signatures := some [], details := fun _ => none }).1

/-- C10 (implicit): when the bootstrap path finds the existing Open game
already expired it closes and draws it without creating a replacement —
the store keeps the same number of game rows and is left with no Open
game — and in that window every candidate transaction is dropped by the
no-open-round check: `processTransaction` leaves the store untouched, and
a fresh, fully validated candidate ends as `skippedNoGame`. -/
theorem c10_bootstrap_expired_no_replacement (db : DB) (now : Int)
    (r : Nat → Nat) (k : Nat) (minSol : Rat) (sig : String) (detail : Option Tx)
    (g : Game) (hg : getCurrentGame db = some g) (hexp : g.end_time ≤ now)
    (h1 : AtMostOneOpen db) :
    (createInitialGame db now r k).games.length = db.games.length ∧
    runningCount (createInitialGame db now r k) = 0 ∧
    (processTransaction minSol (createInitialGame db now r k) sig detail).1
      = createInitialGame db now r k ∧
    (∀ tx w, detail = some tx →
      transactionExists (createInitialGame db now r k) sig = false →
      validateTransaction minSol tx = true →
      resolveWallet tx = some w →
      processTransaction minSol (createInitialGame db now r k) sig detail
        = (createInitialGame db now r k, AdmitOutcome.skippedNoGame)) := by
  obtain ⟨hgm, hgrun⟩ := getCurrentGame_mem hg
  have hci : createInitialGame db now r k = executeGameDraw db g.game_id r k := by
    unfold createInitialGame
    rw [hg]
    dsimp only
    rw [if_pos ⟨hexp, hgrun⟩]
  obtain ⟨w0, sl0, hgames⟩ := executeGameDraw_games db g.game_id r k
  have hrc : runningCount (createInitialGame db now r k) = 0 := by
    rw [hci, runningCount_eq_countP, hgames, List.countP_map, List.countP_eq_zero]
    intro g₀ hg₀ hp
    have hrun : (setCompleted g.game_id w0 sl0 g₀).status = GameStatus.running := by
      simpa using hp
    obtain ⟨hrun₀, hne₀⟩ := running_of_setCompleted hrun
    have h2 : 2 ≤ runningCount db :=
      two_running_le_count hgm hg₀ hgrun hrun₀ (fun hc => hne₀ hc.symm)
    have h1' : runningCount db ≤ 1 := h1
    omega
  have hnone : getCurrentGame (createInitialGame db now r k) = none := by
    rw [getCurrentGame_eq_none_iff]
    have := hrc
    rw [runningCount_eq_length] at this
    exact List.length_eq_zero.mp this
  refine ⟨?_, hrc, processTransaction_fst_no_game hnone, ?_⟩
  · rw [hci, hgames, List.length_map]
  · intro tx w hd hdup hv hw
    exact processTransaction_no_game_outcome hnone hdup hd hv hw

theorem c10_bootstrap_expired_no_replacement_witness :
    getCurrentGame dbOneRunning
        = some { game_id := 1, start_time := 0, end_time := 10,
                 status := GameStatus.running, winner_address := none,
                 draw_shortlist := [], total_volume := 0, prize_pool := 0 } ∧
    (createInitialGame dbOneRunning 11 zeroR 0).games.length
      = dbOneRunning.games.length ∧
    runningCount (createInitialGame dbOneRunning 11 zeroR 0) = 0 := by
  have hg : getCurrentGame dbOneRunning
      = some { game_id := 1, start_time := 0, end_time := 10,
               status := GameStatus.running, winner_address := none,
               draw_shortlist := [], total_volume := 0, prize_pool := 0 } := rfl
  have hc := c10_bootstrap_expired_no_replacement dbOneRunning 11 zeroR 0 0 "sig"
    none _ hg (by decide) (by show runningCount dbOneRunning ≤ 1; decide)
  exact ⟨hg, hc.1, hc.2.1⟩

end PumpLotto
